import Mathlib

/-!
Rating store (`Matrix`) and factor model (`Model`) of cpmf.

Shallow embedding of `src/cpmf/common/common.hpp` and `src/cpmf/common/matrix.cpp`.

* C++ `int` / `long` values are integers (`Int`, sizes and ids are taken inside the range
  of `int`, arithmetic does not wrap); `/` and `%` are the truncating operations
  `Int.tdiv` / `Int.tmod`.  The definitions named `_int32` give lines 33 and 81-88 with
  the 32-bit wrap-around of `int` (`wrap32`); they agree with the others as long as the
  exact results stay inside the range of `int` (`initialize_blocks_int32_eq`).  A division by zero and an unchecked
  `operator[]` outside the vector have no defined result: the embedding returns `none`.
* `float` values live in an arbitrary type `α` (a commutative ring where arithmetic is
  needed), so every statement holds over the reals and can be evaluated over `Int`.
* `std::vector` is `List`; `push_back` appends at the end.
* `std::random_shuffle` and `std::sort` are library code: they are parameters
  (`StdLib`) constrained by their library contract (`StdLib.Conforms`).
-/

namespace cpmf
namespace common

/-! ## Data model (common.hpp) -/

/-- Struct `Node`: one rating record, with dense and original ids. -/
structure Node (α : Type) where
  user_id : Int
  item_id : Int
  orig_user_id : Int
  orig_item_id : Int
  rating : α
deriving DecidableEq

/-- Constructor `Node()`: every field is zero. -/
def Node.init {α : Type} [Zero α] : Node α :=
  { user_id := 0, item_id := 0, orig_user_id := 0, orig_item_id := 0, rating := 0 }

/-- Struct `Block`: grid labels and the records of the block. -/
structure Block (α : Type) where
  user_id : Int
  item_id : Int
  nodes : List (Node α)
deriving DecidableEq

/-- Constructor `Block(block_user_id, block_item_id)`: labels set, `nodes(0)` empty. -/
def Block.init {α : Type} (block_user_id block_item_id : Int) : Block α :=
  { user_id := block_user_id, item_id := block_item_id, nodes := [] }

/-- Public data members of class `Matrix`. -/
structure Matrix (α : Type) where
  num_ratings : Int
  num_ratings_test : Int
  num_users : Int
  num_items : Int
  num_user_blocks : Int
  num_item_blocks : Int
  nodes : List (Node α)
  nodes_test : List (Node α)
  blocks : List (Block α)
deriving DecidableEq

/-- What `sscanf(line, "%d %d %f\n", ...)` converts on one input line: conversions go
left to right and stop at the first field that does not convert. -/
inductive Line (α : Type) where
  | unparsed : Line α
  | one (u : Int) : Line α
  | two (u i : Int) : Line α
  | three (u i : Int) (r : α) : Line α
deriving DecidableEq

/-- Modelled from the spec: `cpmf::DataParams` is declared in `config.hpp`, which is not
among the sources.  It carries the fields the `Matrix` constructor reads; each path is
represented by the lines `getline` yields for it (no line when the file cannot be
opened, matrix.cpp lines 44-50). -/
structure DataParams (α : Type) where
  num_user_blocks : Int
  num_item_blocks : Int
  training : List (Line α)
  test : List (Line α)
  randomize : Bool

/-- Library routines used by matrix.cpp: the k-th call of `std::random_shuffle` and
`std::sort` with a comparator. -/
structure StdLib (α : Type) where
  random_shuffle : Nat → List Int → List Int
  sort : (Node α → Node α → Bool) → List (Node α) → List (Node α)

/-- Library contract: a shuffle reorders its argument; a sort reorders its argument so
that no later element is strictly before an earlier one. -/
def StdLib.Conforms {α : Type} (lib : StdLib α) : Prop :=
  (∀ k l, (lib.random_shuffle k l).Perm l) ∧
  (∀ lt l, (lib.sort lt l).Perm l) ∧
  (∀ lt l, (∀ a b c, lt a b = false → lt b c = false → lt a c = false) →
    (∀ a b, lt a b = true → lt b a = false) →
    (lib.sort lt l).Pairwise (fun a b => lt b a = false))

/-! ## Primitive operations -/

/-- C++ integer division `a / b`: undefined for `b = 0`, truncating otherwise. -/
def cdiv (a b : Int) : Option Int :=
  if b = 0 then none else some (Int.tdiv a b)

/-- Unchecked `v[k]` on a `std::vector`: defined only for `0 ≤ k < v.size()`. -/
def vec_at {β : Type} (v : List β) (k : Int) : Option β :=
  if 0 ≤ k then v[k.toNat]? else none

/-- Effect of the `sscanf` call of `Matrix::read` on the fields of `node`. -/
def sscanf {α : Type} (line : Line α) (node : Node α) : Node α :=
  match line with
  | .unparsed => node
  | .one u => { node with orig_user_id := u }
  | .two u i => { node with orig_user_id := u, orig_item_id := i }
  | .three u i r => { node with orig_user_id := u, orig_item_id := i, rating := r }

/-! ## Class Matrix (matrix.cpp) -/

/-- Loop of `Matrix::initialize_blocks` (lines 33-38). -/
def Matrix.initialize_blocks {α : Type} (m : Matrix α) : Matrix α :=
  let total_num_blocks := m.num_user_blocks * m.num_item_blocks
  (List.range total_num_blocks.toNat).foldl
    (fun (m : Matrix α) (block_id : Nat) =>
      let block_user_id := Int.tdiv (block_id : Int) m.num_user_blocks
      let block_item_id := Int.tmod (block_id : Int) m.num_user_blocks
      { m with blocks := m.blocks ++ [Block.init block_user_id block_item_id] })
    m

/-- One iteration of the `while (getline ...)` loop of `Matrix::read` (lines 51-57). -/
def Matrix.read_line {α : Type} [Zero α]
    (s : Matrix α × Int × List (Node α)) (line_buf : Line α) :
    Matrix α × Int × List (Node α) :=
  let m := s.1
  let node := sscanf line_buf Node.init
  let m := if node.orig_user_id > m.num_users then
    { m with num_users := node.orig_user_id } else m
  let m := if node.orig_item_id > m.num_items then
    { m with num_items := node.orig_item_id } else m
  (m, s.2.1 + 1, s.2.2 ++ [node])

/-- `Matrix::read(input_path, num_ratings, nodes)`: the object and the two out-parameters
after all lines of the input were consumed. -/
def Matrix.read {α : Type} [Zero α] (m : Matrix α) (input : List (Line α))
    (num_ratings : Int) (nodes : List (Node α)) : Matrix α × Int × List (Node α) :=
  input.foldl Matrix.read_line (m, num_ratings, nodes)

/-- `Matrix::generate_mapping_vector(mapping_vec, randomize)`; `shuffle` is the call of
`std::random_shuffle` made at line 66. -/
def generate_mapping_vector (shuffle : List Int → List Int)
    (mapping_vec : List Int) (randomize : Bool) : List Int :=
  let size := mapping_vec.length
  let v := (List.range size).foldl (fun (v : List Int) (i : Nat) => v.set i ((i : Int) + 1))
    mapping_vec
  if randomize then shuffle v else v

/-- `Matrix::assign_user_and_item_id(nodes, user_mapping, item_mapping)`. -/
def assign_user_and_item_id {α : Type} :
    List (Node α) → List Int → List Int → Option (List (Node α))
  | [], _, _ => some []
  | node :: rest, user_mapping, item_mapping =>
    match vec_at user_mapping (node.orig_user_id - 1),
          vec_at item_mapping (node.orig_item_id - 1) with
    | some u, some i =>
      match assign_user_and_item_id rest user_mapping item_mapping with
      | some rest' => some ({ node with user_id := u, item_id := i } :: rest')
      | none => none
    | _, _ => none

/-- Row index computed at line 86. -/
def blk_u_id {α : Type} (blk_u_len : Int) (node : Node α) : Option Int :=
  cdiv (node.user_id - 1) blk_u_len

/-- Column index computed at line 87. -/
def blk_i_id {α : Type} (blk_i_len : Int) (node : Node α) : Option Int :=
  cdiv (node.item_id - 1) blk_i_len

/-- Flat index computed at line 88. -/
def blk_id {α : Type} (blk_u_len blk_i_len num_item_blocks : Int) (node : Node α) :
    Option Int :=
  match blk_u_id blk_u_len node, blk_i_id blk_i_len node with
  | some u, some i => some (u * num_item_blocks + i)
  | _, _ => none

/-- Line 89: `blocks[blk_id].nodes.push_back(node)`. -/
def push_node {α : Type} (blocks : List (Block α)) (blk_id : Int) (node : Node α) :
    Option (List (Block α)) :=
  match vec_at blocks blk_id with
  | none => none
  | some b => some (blocks.set blk_id.toNat { b with nodes := b.nodes ++ [node] })

/-- The loop of `Matrix::assign_nodes_to_blocks` (lines 84-90) over the remaining records. -/
def assign_loop {α : Type} (blk_u_len blk_i_len num_item_blocks : Int) :
    List (Node α) → List (Block α) → Option (List (Block α))
  | [], blocks => some blocks
  | node :: rest, blocks =>
    match blk_id blk_u_len blk_i_len num_item_blocks node with
    | none => none
    | some k =>
      match push_node blocks k node with
      | none => none
      | some blocks' => assign_loop blk_u_len blk_i_len num_item_blocks rest blocks'

/-- `Matrix::assign_nodes_to_blocks`. -/
def Matrix.assign_nodes_to_blocks {α : Type} (m : Matrix α) : Option (Matrix α) :=
  match cdiv m.num_users m.num_user_blocks, cdiv m.num_items m.num_item_blocks with
  | some qu, some qi =>
    let blk_u_len := qu + 1
    let blk_i_len := qi + 1
    match assign_loop blk_u_len blk_i_len m.num_item_blocks m.nodes m.blocks with
    | some blocks' => some { m with blocks := blocks' }
    | none => none
  | _, _ => none

/-- Comparator passed to `std::sort` at lines 96-97. -/
def user_id_less {α : Type} (left right : Node α) : Bool :=
  decide (left.user_id < right.user_id)

/-- `Matrix::sort_nodes_by_user_id`. -/
def Matrix.sort_nodes_by_user_id {α : Type} (lib : StdLib α) (m : Matrix α) : Matrix α :=
  { m with blocks := m.blocks.map (fun block =>
      { block with nodes := lib.sort user_id_less block.nodes }) }

/-- Member initialisers of the constructor (lines 11-15). -/
def Matrix.init {α : Type} (data_params : DataParams α) : Matrix α :=
  { num_ratings := 0, num_ratings_test := 0, num_users := 0, num_items := 0,
    num_user_blocks := data_params.num_user_blocks,
    num_item_blocks := data_params.num_item_blocks,
    nodes := [], nodes_test := [], blocks := [] }

/-- Constructor body, lines 16-19: blocks created, both inputs read. -/
def Matrix.read_inputs {α : Type} [Zero α] (data_params : DataParams α) : Matrix α :=
  let m := (Matrix.init data_params).initialize_blocks
  let r := m.read data_params.training m.num_ratings m.nodes
  let m := { r.1 with num_ratings := r.2.1, nodes := r.2.2 }
  let r := m.read data_params.test m.num_ratings_test m.nodes_test
  { r.1 with num_ratings_test := r.2.1, nodes_test := r.2.2 }

/-- Mapping vector built at lines 21-24 for a population of `n`: `std::vector<int>(n, 0)`
passed to `generate_mapping_vector`, shuffled by the `k`-th library call. -/
def mapping_of {α : Type} (lib : StdLib α) (k : Nat) (n : Int) (randomize : Bool) :
    List Int :=
  generate_mapping_vector (lib.random_shuffle k) (List.replicate n.toNat 0) randomize

/-- Constructor body, lines 16-26: the state reached after both record lists were
remapped (`none` when a mapping lookup leaves its vector). -/
def Matrix.remapped {α : Type} [Zero α] (lib : StdLib α) (data_params : DataParams α) :
    Option (Matrix α) :=
  let m := Matrix.read_inputs data_params
  let user_mapping := mapping_of lib 0 m.num_users data_params.randomize
  let item_mapping := mapping_of lib 1 m.num_items data_params.randomize
  match assign_user_and_item_id m.nodes user_mapping item_mapping with
  | none => none
  | some nodes' =>
    match assign_user_and_item_id m.nodes_test user_mapping item_mapping with
    | none => none
    | some test' => some { m with nodes := nodes', nodes_test := test' }

/-- The constructor `Matrix::Matrix(data_params)` (lines 10-30). -/
def Matrix.create {α : Type} [Zero α] (lib : StdLib α) (data_params : DataParams α) :
    Option (Matrix α) :=
  match Matrix.remapped lib data_params with
  | none => none
  | some m =>
    match m.assign_nodes_to_blocks with
    | none => none
    | some m' => some (m'.sort_nodes_by_user_id lib)

variable {α : Type}

/-! ## Class Model (common.hpp) -/

/-- Modelled from the spec: `cpmf::ModelParams` is declared in `config.hpp`, which is not
among the sources.  It carries the fields `Model` reads: the embedding dimension `dim`
(a count), `step_size`, and the regularization coefficients `lp` (users) and `lq`
(items). -/
structure ModelParams (α : Type) where
  dim : Nat
  step_size : α
  lp : α
  lq : α

/-- Data members of class `Model`.  `P` and `Q` are the two float buffers: `P k` is the
cell at offset `k` from `P.get()`; the buffers are distinct allocations. -/
structure Model (α : Type) where
  params_ : ModelParams α
  num_users_ : Int
  num_items_ : Int
  num_blocks_ : Int
  P : Int → α
  Q : Int → α

/-- `std::inner_product(p, p + dim, q, init)`: the products are added to the accumulator
from the first to the last. -/
def inner_product {α : Type} [Add α] [Mul α] (p q : Nat → α) (dim : Nat) (init : α) : α :=
  (List.range dim).foldl (fun (acc : α) (d : Nat) => acc + p d * q d) init

/-- `Model::calc_error(node)` (lines 78-82): the value returned and the object after the
call. -/
def Model.calc_error {α : Type} [Ring α] (m : Model α) (node : Node α) : α × Model α :=
  let p := (node.user_id - 1) * (m.params_.dim : Int)
  let q := (node.item_id - 1) * (m.params_.dim : Int)
  (node.rating -
    inner_product (fun d => m.P (p + (d : Int))) (fun d => m.Q (q + (d : Int)))
      m.params_.dim 0, m)

/-- Body of the inner loop of `Model::sgd` (lines 94-96) for dimension `d`; `p` and `q`
are the offsets of the two rows. -/
def Model.sgd_dim {α : Type} [Ring α] (step_size error : α) (p q : Int)
    (m : Model α) (d : Nat) : Model α :=
  let temp := m.P (p + (d : Int))
  let p_d := m.P (p + (d : Int)) +
    (error * m.Q (q + (d : Int)) - m.params_.lp * m.P (p + (d : Int))) * step_size
  let m : Model α := { m with P := Function.update m.P (p + (d : Int)) p_d }
  let q_d := m.Q (q + (d : Int)) +
    (error * temp - m.params_.lq * m.Q (q + (d : Int))) * step_size
  { m with Q := Function.update m.Q (q + (d : Int)) q_d }

/-- Body of the outer loop of `Model::sgd` (lines 89-97) for one record. -/
def Model.sgd_node {α : Type} [Ring α] (dim : Nat) (step_size : α)
    (m : Model α) (node : Node α) : Model α :=
  let p := (node.user_id - 1) * (dim : Int)
  let q := (node.item_id - 1) * (dim : Int)
  let error := node.rating -
    inner_product (fun d => m.P (p + (d : Int))) (fun d => m.Q (q + (d : Int))) dim 0
  (List.range dim).foldl (Model.sgd_dim step_size error p q) m

/-- `Model::sgd(block_id, block)` (lines 84-99). -/
def Model.sgd {α : Type} [Ring α] (m : Model α) (_block_id : Int) (block : Block α) :
    Model α :=
  let dim := m.params_.dim
  let step_size := m.params_.step_size
  block.nodes.foldl (Model.sgd_node dim step_size) m

/-- Spec 4.3, one row of the simultaneous update: every cell `k` of the row of `own` that
starts at `base_own` becomes `own[k] + step_size * (error * other[d] - reg * own[k])`,
`d` the dimension of `k` and `other[d]` the cell of dimension `d` in the row of `other`;
all cells are read before the update. -/
def spec_row_update {α : Type} [Ring α] (step_size reg error : α) (own other : Int → α)
    (base_own base_other : Int) (dim : Nat) : Int → α :=
  fun k =>
    if base_own ≤ k ∧ k < base_own + (dim : Int) then
      own k + step_size * (error * other (base_other + (k - base_own)) - reg * own k)
    else own k

/-- Spec 4.3, `block_update` for one record: `error` from the rows before the update,
then both rows updated from the old values. -/
def spec_update_record {α : Type} [Ring α] (m : Model α) (node : Node α) : Model α :=
  let dim := m.params_.dim
  let base_p := (node.user_id - 1) * (dim : Int)
  let base_q := (node.item_id - 1) * (dim : Int)
  let error := node.rating -
    ((List.range dim).map (fun (d : Nat) =>
      m.P (base_p + (d : Int)) * m.Q (base_q + (d : Int)))).sum
  { m with
    P := spec_row_update m.params_.step_size m.params_.lp error m.P m.Q base_p base_q dim,
    Q := spec_row_update m.params_.step_size m.params_.lq error m.Q m.P base_q base_p dim }

/-- Spec 4.3, `block_update`: the records of the block processed in sequence order. -/
def spec_block_update {α : Type} [Ring α] (m : Model α) (block : Block α) : Model α :=
  block.nodes.foldl spec_update_record m

/-! ## Auxiliary definitions for the statements -/

/-- Records of all blocks, in grid order. -/
def all_block_nodes {α : Type} (blocks : List (Block α)) : List (Node α) :=
  blocks.flatMap (fun b => b.nodes)

/-- A library instance used for evaluation: shuffles reverse, sorting is insertion sort. -/
def demoLib : StdLib Int :=
  { random_shuffle := fun _ l => l.reverse,
    sort := fun lt l => l.insertionSort (fun a b => lt b a = false) }

/-- Original user ids of the records `Matrix::read` makes from its input. -/
def read_user_ids [Zero α] (input : List (Line α)) : List Int :=
  input.map (fun l => (sscanf l Node.init).orig_user_id)

/-- Original item ids of the records `Matrix::read` makes from its input. -/
def read_item_ids [Zero α] (input : List (Line α)) : List Int :=
  input.map (fun l => (sscanf l Node.init).orig_item_id)

/-- Flat index of the spec: `row_index * num_item_blocks + col_index` with
`row_index = (user_id - 1) / span_u` and `col_index = (item_id - 1) / span_i`. -/
def span_flat_index (span_u span_i num_item_blocks : Int) (node : Node α) : Int :=
  (node.user_id - 1) / span_u * num_item_blocks + (node.item_id - 1) / span_i

/-- Dense ids of a record lie inside the population of `m`. -/
def Matrix.in_range (m : Matrix α) (n : Node α) : Prop :=
  1 ≤ n.user_id ∧ n.user_id ≤ m.num_users ∧ 1 ≤ n.item_id ∧ n.item_id ≤ m.num_items

instance (m : Matrix α) (n : Node α) : Decidable (m.in_range n) := by
  unfold Matrix.in_range; infer_instance

/-- Evaluation input: a 2 x 2 grid, three training lines, one test line, shuffled ids. -/
def sampleParams : DataParams Int :=
  { num_user_blocks := 2, num_item_blocks := 2,
    training := [.three 3 1 5, .three 1 2 4, .three 2 2 1],
    test := [.three 1 1 2], randomize := true }

/-- State of the constructor on `sampleParams` after remapping (line 26). -/
def sampleRemapped : Matrix Int :=
  { num_ratings := 3, num_ratings_test := 1, num_users := 3, num_items := 2,
    num_user_blocks := 2, num_item_blocks := 2,
    nodes := [⟨1, 2, 3, 1, 5⟩, ⟨3, 1, 1, 2, 4⟩, ⟨2, 1, 2, 2, 1⟩],
    nodes_test := [⟨3, 2, 1, 1, 2⟩],
    blocks := [⟨0, 0, []⟩, ⟨0, 1, []⟩, ⟨1, 0, []⟩, ⟨1, 1, []⟩] }

/-- Evaluation input: 2 x 2 grid, user ids up to 4 (a multiple of `num_user_blocks`). -/
def evenParams : DataParams Int :=
  { num_user_blocks := 2, num_item_blocks := 2,
    training := [.three 3 1 5, .three 4 1 4], test := [], randomize := false }

/-- Relation between a record before (`n`) and after (`n'`) the body of the loop of
`assign_user_and_item_id` (lines 75-76): both lookups are defined and give the dense ids,
the other fields are kept. -/
def Remap (user_mapping item_mapping : List Int) (n n' : Node α) : Prop :=
  vec_at user_mapping (n.orig_user_id - 1) = some n'.user_id ∧
  vec_at item_mapping (n.orig_item_id - 1) = some n'.item_id ∧
  n'.orig_user_id = n.orig_user_id ∧ n'.orig_item_id = n.orig_item_id ∧
  n'.rating = n.rating

/-- Evaluation input: the test input holds a user id above every training user id. -/
def testHeavyParams : DataParams Int :=
  { num_user_blocks := 1, num_item_blocks := 1,
    training := [.three 1 1 5], test := [.three 2 1 3], randomize := false }

/-- Evaluation input: one training line with user id 2, shuffled mapping. -/
def sparseParams : DataParams Int :=
  { num_user_blocks := 1, num_item_blocks := 1,
    training := [.three 2 1 5], test := [], randomize := true }

/-- Evaluation input: a grid of one row and two columns, no record. -/
def gridParams : DataParams Int :=
  { num_user_blocks := 1, num_item_blocks := 2,
    training := [], test := [], randomize := false }

/-- Evaluation input: a 2 x 3 grid with two training records that share item 1. -/
def crossParams : DataParams Int :=
  { num_user_blocks := 2, num_item_blocks := 3,
    training := [.three 1 1 5, .three 3 1 4], test := [], randomize := false }

/-- Evaluation model: `dim = 2`, two users, two items, integer factors. -/
def sampleModel : Model Int :=
  { params_ := { dim := 2, step_size := 2, lp := 1, lq := 3 },
    num_users_ := 2, num_items_ := 2, num_blocks_ := 1,
    P := fun k => k + 1, Q := fun k => 2 * k - 1 }

/-- Cell `k` of a factor buffer lies in the row of dense id `id`: the cells
`(id - 1) * dim + d` with `d < dim` (the row at index `id - 1`). -/
def in_row (dim : Nat) (id : Int) (k : Int) : Prop :=
  (id - 1) * (dim : Int) ≤ k ∧ k < (id - 1) * (dim : Int) + (dim : Int)

instance (dim : Nat) (id k : Int) : Decidable (in_row dim id k) := by
  unfold in_row; infer_instance

/-- Evaluation block: one record of dense user 1 and dense item 1. -/
def sampleBlock1 : Block Int := ⟨0, 0, [⟨1, 1, 1, 1, 7⟩]⟩

/-- Evaluation block: one record of dense user 2 and dense item 2. -/
def sampleBlock2 : Block Int := ⟨1, 1, [⟨2, 2, 2, 2, 3⟩]⟩

/-- The constructed matrix for `sampleParams` under `demoLib`. -/
def sampleMatrix : Matrix Int :=
  { num_ratings := 3, num_ratings_test := 1, num_users := 3, num_items := 2,
    num_user_blocks := 2, num_item_blocks := 2,
    nodes := [⟨1, 2, 3, 1, 5⟩, ⟨3, 1, 1, 2, 4⟩, ⟨2, 1, 2, 2, 1⟩],
    nodes_test := [⟨3, 2, 1, 1, 2⟩],
    blocks := [⟨0, 0, [⟨1, 2, 3, 1, 5⟩, ⟨2, 1, 2, 2, 1⟩]⟩, ⟨0, 1, []⟩,
      ⟨1, 0, [⟨3, 1, 1, 2, 4⟩]⟩, ⟨1, 1, []⟩] }

/-- Fields of a record that `assign_user_and_item_id` does not write. -/
def same_original (n n' : Node α) : Prop :=
  n'.orig_user_id = n.orig_user_id ∧ n'.orig_item_id = n.orig_item_id ∧
  n'.rating = n.rating

/-- A value that a 32-bit `int` holds. -/
def is_int (x : Int) : Prop := -2147483648 ≤ x ∧ x ≤ 2147483647

instance (x : Int) : Decidable (is_int x) := by
  unfold is_int; infer_instance

/-- Value left in a 32-bit `int` by an operation whose exact result is `x`
(two's-complement wrap-around). -/
def wrap32 (x : Int) : Int := (x + 2147483648) % 4294967296 - 2147483648

/-- `Matrix::initialize_blocks` (lines 33-38) with the product of line 33 computed in
`int`. -/
def Matrix.initialize_blocks_int32 (m : Matrix α) : Matrix α :=
  let total_num_blocks := wrap32 (m.num_user_blocks * m.num_item_blocks)
  (List.range total_num_blocks.toNat).foldl
    (fun (m : Matrix α) (block_id : Nat) =>
      let block_user_id := Int.tdiv (block_id : Int) m.num_user_blocks
      let block_item_id := Int.tmod (block_id : Int) m.num_user_blocks
      { m with blocks := m.blocks ++ [Block.init block_user_id block_item_id] })
    m

/-- Span of lines 81-82, `n / b + 1`, computed in `int`. -/
def blk_len_int32 (n b : Int) : Option Int :=
  match cdiv n b with
  | some q => some (wrap32 (q + 1))
  | none => none

/-- Row index of line 86 computed in `int`. -/
def blk_u_id_int32 (blk_u_len : Int) (node : Node α) : Option Int :=
  cdiv (wrap32 (node.user_id - 1)) blk_u_len

/-- Column index of line 87 computed in `int`. -/
def blk_i_id_int32 (blk_i_len : Int) (node : Node α) : Option Int :=
  cdiv (wrap32 (node.item_id - 1)) blk_i_len

/-- Flat index of line 88 computed in `int`. -/
def blk_id_int32 (blk_u_len blk_i_len num_item_blocks : Int) (node : Node α) :
    Option Int :=
  match blk_u_id_int32 blk_u_len node, blk_i_id_int32 blk_i_len node with
  | some u, some i => some (wrap32 (wrap32 (u * num_item_blocks) + i))
  | _, _ => none

/-- Evaluation state: one user, one item, a grid of 65536 x 65536 blocks. -/
def overflowGrid : Matrix Int :=
  { num_ratings := 1, num_ratings_test := 0, num_users := 1, num_items := 1,
    num_user_blocks := 65536, num_item_blocks := 65536,
    nodes := [⟨1, 1, 1, 1, 5⟩], nodes_test := [], blocks := [] }

/-! ## Theorems -/

theorem initialize_blocks_fold (l : List Nat) (m : Matrix α) :
    l.foldl (fun (m : Matrix α) (block_id : Nat) =>
      let block_user_id := Int.tdiv (block_id : Int) m.num_user_blocks
      let block_item_id := Int.tmod (block_id : Int) m.num_user_blocks
      { m with blocks := m.blocks ++ [Block.init block_user_id block_item_id] }) m
    = { m with blocks := m.blocks ++ l.map (fun (k : Nat) =>
        Block.init (Int.tdiv (k : Int) m.num_user_blocks)
          (Int.tmod (k : Int) m.num_user_blocks)) } := by
  induction l generalizing m with
  | nil => simp
  | cons k l ih => simp [List.foldl_cons, ih]

theorem initialize_blocks_eq (m : Matrix α) :
    m.initialize_blocks = { m with blocks := m.blocks ++
      (List.range (m.num_user_blocks * m.num_item_blocks).toNat).map (fun (k : Nat) =>
        Block.init (Int.tdiv (k : Int) m.num_user_blocks)
          (Int.tmod (k : Int) m.num_user_blocks)) } := by
  unfold Matrix.initialize_blocks
  exact initialize_blocks_fold _ m

theorem vec_at_some {β : Type} (v : List β) (k : Int) (h0 : 0 ≤ k)
    (hk : k < (v.length : Int)) : ∃ b, vec_at v k = some b ∧ v[k.toNat]? = some b := by
  have hlt : k.toNat < v.length := by omega
  refine ⟨v[k.toNat], ?_, ?_⟩
  · simp [vec_at, h0, List.getElem?_eq_getElem hlt]
  · simp [List.getElem?_eq_getElem hlt]

theorem vec_at_eq_some {β : Type} {v : List β} {k : Int} {b : β} (h : vec_at v k = some b) :
    0 ≤ k ∧ k.toNat < v.length ∧ v[k.toNat]? = some b := by
  unfold vec_at at h
  split at h
  · rename_i h0
    refine ⟨h0, ?_, h⟩
    exact (List.getElem?_eq_some_iff.mp h).1
  · cases h

/-- Concatenated records after one element of the grid got an extra record. -/
theorem all_block_nodes_set (blocks : List (Block α)) (j : Nat) (b : Block α)
    (node : Node α) (hb : blocks[j]? = some b) :
    (all_block_nodes (blocks.set j { b with nodes := b.nodes ++ [node] })).Perm
      (node :: all_block_nodes blocks) := by
  induction blocks generalizing j with
  | nil => simp at hb
  | cons c cs ih =>
    cases j with
    | zero =>
      simp at hb
      subst hb
      simp only [all_block_nodes, List.set_cons_zero, List.flatMap_cons]
      rw [List.append_assoc]
      exact (List.perm_middle).trans (List.Perm.refl _)
    | succ j =>
      simp at hb
      have := ih j hb
      simp only [all_block_nodes, List.set_cons_succ, List.flatMap_cons] at this ⊢
      exact (List.Perm.append_left c.nodes this).trans List.perm_middle

theorem push_node_spec (blocks : List (Block α)) (k : Nat) (node : Node α)
    (hk : k < blocks.length) :
    ∃ b, blocks[k]? = some b ∧
      push_node blocks (k : Int) node =
        some (blocks.set k { b with nodes := b.nodes ++ [node] }) := by
  refine ⟨blocks[k], List.getElem?_eq_getElem hk, ?_⟩
  simp [push_node, vec_at, List.getElem?_eq_getElem hk]

/-- The loop of `assign_nodes_to_blocks`, when every flat index is inside the grid: it
finishes, keeps the grid size and the labels, and appends to block `j` the records whose
flat index is `j`, in input order. -/
theorem assign_loop_spec (lu li ib : Int) (idx : Node α → Nat) (nodes : List (Node α)) :
    ∀ (blocks : List (Block α)),
    (∀ n ∈ nodes, blk_id lu li ib n = some (idx n : Int) ∧ idx n < blocks.length) →
    ∃ blocks', assign_loop lu li ib nodes blocks = some blocks' ∧
      blocks'.length = blocks.length ∧
      (all_block_nodes blocks').Perm (all_block_nodes blocks ++ nodes) ∧
      ∀ (j : Nat) (b : Block α), blocks[j]? = some b →
        blocks'[j]? = some { b with
          nodes := b.nodes ++ nodes.filter (fun n => decide (idx n = j)) } := by
  induction nodes with
  | nil =>
    intro blocks _
    exact ⟨blocks, rfl, rfl, by simp, by intro j b hb; simpa using hb⟩
  | cons n rest ih =>
    intro blocks h
    obtain ⟨hn, hlt⟩ := h n (List.mem_cons_self _ _)
    obtain ⟨b0, hb0, hpush⟩ := push_node_spec blocks (idx n) n hlt
    have hrest : ∀ x ∈ rest, blk_id lu li ib x = some (idx x : Int) ∧
        idx x < (blocks.set (idx n) { b0 with nodes := b0.nodes ++ [n] }).length := by
      intro x hx
      have := h x (List.mem_cons_of_mem _ hx)
      simpa using this
    obtain ⟨blocks', hloop, hlen, hperm, hget⟩ := ih _ hrest
    refine ⟨blocks', ?_, ?_, ?_, ?_⟩
    · simp [assign_loop, hn, hpush, hloop]
    · simpa using hlen
    · refine hperm.trans ?_
      refine ((all_block_nodes_set blocks (idx n) b0 n hb0).append_right rest).trans ?_
      simpa using (@List.perm_middle _ n (all_block_nodes blocks) rest).symm
    · intro j b hb
      by_cases hj : idx n = j
      · subst hj
        have hb' : b0 = b := by rw [hb0] at hb; exact Option.some.inj hb
        subst hb'
        have := hget (idx n) { b0 with nodes := b0.nodes ++ [n] }
          (by simp [List.getElem?_set, hlt])
        simpa [List.filter_cons] using this
      · have := hget j b (by simp [List.getElem?_set, hj, hb])
        simpa [List.filter_cons, hj] using this

/-- Truncating division by the span used at lines 81-87, for an id inside `[1, n]`. -/
theorem span_index_bounds (n b u : Int) (hb : 1 ≤ b) (h1 : 1 ≤ u) (hu : u ≤ n) :
    cdiv n b = some (n / b) ∧
    cdiv (u - 1) (n / b + 1) = some ((u - 1) / (n / b + 1)) ∧
    0 ≤ (u - 1) / (n / b + 1) ∧ (u - 1) / (n / b + 1) < b := by
  have hn : 0 ≤ n := by omega
  have hq : 0 ≤ n / b := Int.ediv_nonneg hn (by omega)
  have hlen : 0 < n / b + 1 := by omega
  refine ⟨?_, ?_, ?_, ?_⟩
  · have : b ≠ 0 := by omega
    simp [cdiv, this, Int.tdiv_eq_ediv hn (by omega : (0 : Int) ≤ b)]
  · have : n / b + 1 ≠ 0 := by omega
    simp [cdiv, this, Int.tdiv_eq_ediv (by omega : (0 : Int) ≤ u - 1) (by omega : (0 : Int) ≤ n / b + 1)]
  · exact Int.ediv_nonneg (by omega) (by omega)
  · apply Int.ediv_lt_of_lt_mul hlen
    have := Int.lt_ediv_add_one_mul_self n (by omega : (0 : Int) < b)
    have h2 : b * (n / b + 1) = (n / b + 1) * b := by ring
    omega

theorem flat_index_bounds (r c ub ib : Int) (hr0 : 0 ≤ r) (hr : r < ub) (hc0 : 0 ≤ c)
    (hc : c < ib) : 0 ≤ r * ib + c ∧ r * ib + c < ub * ib := by
  constructor
  · have : 0 ≤ r * ib := Int.mul_nonneg hr0 (by omega)
    omega
  · have h1 : (r + 1) * ib ≤ ub * ib := Int.mul_le_mul_of_nonneg_right (by omega) (by omega)
    have h2 : (r + 1) * ib = r * ib + ib := by ring
    omega

theorem read_line_eq [Zero α] (m : Matrix α) (c : Int) (ns : List (Node α)) (l : Line α) :
    Matrix.read_line (m, c, ns) l =
      ({ m with
          num_users := max m.num_users (sscanf l Node.init).orig_user_id,
          num_items := max m.num_items (sscanf l Node.init).orig_item_id },
        c + 1, ns ++ [sscanf l Node.init]) := by
  unfold Matrix.read_line
  by_cases hu : (sscanf l (Node.init : Node α)).orig_user_id > m.num_users <;>
  by_cases hi : (sscanf l (Node.init : Node α)).orig_item_id > m.num_items
  all_goals simp only [hu, hi, if_true, if_false]
  · rw [max_eq_right (by omega), max_eq_right (by omega)]
  · rw [max_eq_right (by omega), max_eq_left (by omega)]
  · rw [max_eq_left (by omega), max_eq_right (by omega)]
  · rw [max_eq_left (by omega), max_eq_left (by omega)]

theorem read_eq [Zero α] (input : List (Line α)) :
    ∀ (m : Matrix α) (c : Int) (ns : List (Node α)),
    m.read input c ns =
      ({ m with
          num_users := (read_user_ids input).foldl max m.num_users,
          num_items := (read_item_ids input).foldl max m.num_items },
        c + (input.length : Int), ns ++ input.map (fun l => sscanf l Node.init)) := by
  induction input with
  | nil => intro m c ns; simp [Matrix.read, read_user_ids, read_item_ids]
  | cons l ls ih =>
    intro m c ns
    have := ih ({ m with
          num_users := max m.num_users (sscanf l Node.init).orig_user_id,
          num_items := max m.num_items (sscanf l Node.init).orig_item_id }) (c + 1)
          (ns ++ [sscanf l Node.init])
    unfold Matrix.read at this ⊢
    rw [List.foldl_cons, read_line_eq, this]
    simp [read_user_ids, read_item_ids]
    omega

/-- State of the object once both inputs were read (constructor, lines 16-19). -/
theorem read_inputs_eq [Zero α] (dp : DataParams α) :
    Matrix.read_inputs dp =
      { num_ratings := (dp.training.length : Int),
        num_ratings_test := (dp.test.length : Int),
        num_users := (read_user_ids dp.test).foldl max
          ((read_user_ids dp.training).foldl max 0),
        num_items := (read_item_ids dp.test).foldl max
          ((read_item_ids dp.training).foldl max 0),
        num_user_blocks := dp.num_user_blocks,
        num_item_blocks := dp.num_item_blocks,
        nodes := dp.training.map (fun l => sscanf l Node.init),
        nodes_test := dp.test.map (fun l => sscanf l Node.init),
        blocks := (Matrix.init dp).initialize_blocks.blocks } := by
  unfold Matrix.read_inputs
  simp only [read_eq, initialize_blocks_eq]
  simp [Matrix.init]

theorem remapped_frame [Zero α] {lib : StdLib α} {dp : DataParams α} {m : Matrix α}
    (hm : Matrix.remapped lib dp = some m) :
    m.blocks = (Matrix.init dp).initialize_blocks.blocks ∧
    m.num_user_blocks = dp.num_user_blocks ∧ m.num_item_blocks = dp.num_item_blocks ∧
    m.num_users = (Matrix.read_inputs dp).num_users ∧
    m.num_items = (Matrix.read_inputs dp).num_items ∧
    m.num_ratings = (Matrix.read_inputs dp).num_ratings ∧
    m.num_ratings_test = (Matrix.read_inputs dp).num_ratings_test := by
  unfold Matrix.remapped at hm
  simp only at hm
  split at hm
  · cases hm
  · split at hm
    · cases hm
    · cases hm
      simp [read_inputs_eq]

theorem grid_length (ub ib : Int) (m : Matrix α) (hub : m.num_user_blocks = ub)
    (hib : m.num_item_blocks = ib) (hu : 1 ≤ ub) (hi : 1 ≤ ib) (hb : m.blocks = []) :
    (m.initialize_blocks.blocks.length : Int) = ub * ib := by
  rw [initialize_blocks_eq]
  simp [hb, hub, hib]
  have : 0 ≤ ub * ib := Int.mul_nonneg (by omega) (by omega)
  omega

theorem all_block_nodes_grid (m : Matrix α) (hb : m.blocks = []) :
    all_block_nodes m.initialize_blocks.blocks = [] := by
  rw [initialize_blocks_eq]
  simp [hb, all_block_nodes, Block.init]

theorem grid_nodes_empty (m : Matrix α) (hb : m.blocks = []) (j : Nat) (b : Block α)
    (hj : m.initialize_blocks.blocks[j]? = some b) : b.nodes = [] := by
  rw [initialize_blocks_eq] at hj
  simp [hb] at hj
  obtain ⟨k, _, hk⟩ := hj
  rw [← hk]
  rfl

/-- For an in-range record the flat index of line 88 is the span formula with the spans
of lines 81-82, and it lies inside a grid of `num_user_blocks * num_item_blocks`. -/
theorem blk_id_in_range (m : Matrix α) (node : Node α) (hu : 1 ≤ m.num_user_blocks)
    (hi : 1 ≤ m.num_item_blocks) (h : m.in_range node) :
    cdiv m.num_users m.num_user_blocks = some (m.num_users / m.num_user_blocks) ∧
    cdiv m.num_items m.num_item_blocks = some (m.num_items / m.num_item_blocks) ∧
    blk_id (m.num_users / m.num_user_blocks + 1) (m.num_items / m.num_item_blocks + 1)
        m.num_item_blocks node =
      some (span_flat_index (m.num_users / m.num_user_blocks + 1)
        (m.num_items / m.num_item_blocks + 1) m.num_item_blocks node) ∧
    0 ≤ span_flat_index (m.num_users / m.num_user_blocks + 1)
        (m.num_items / m.num_item_blocks + 1) m.num_item_blocks node ∧
    span_flat_index (m.num_users / m.num_user_blocks + 1)
        (m.num_items / m.num_item_blocks + 1) m.num_item_blocks node
      < m.num_user_blocks * m.num_item_blocks := by
  obtain ⟨h1, h2, h3, h4⟩ := h
  obtain ⟨a1, a2, a3, a4⟩ := span_index_bounds m.num_users m.num_user_blocks _ hu h1 h2
  obtain ⟨b1, b2, b3, b4⟩ := span_index_bounds m.num_items m.num_item_blocks _ hi h3 h4
  have hb := flat_index_bounds _ _ _ _ a3 a4 b3 b4
  refine ⟨a1, b1, ?_, hb.1, hb.2⟩
  simp [blk_id, blk_u_id, blk_i_id, a2, b2, span_flat_index]

/-- Run of `assign_nodes_to_blocks` on a freshly initialised grid with in-range records. -/
theorem assign_nodes_to_blocks_spec (m : Matrix α) (hu : 1 ≤ m.num_user_blocks)
    (hi : 1 ≤ m.num_item_blocks)
    (hgrid : m.blocks = ({ m with blocks := [] } : Matrix α).initialize_blocks.blocks)
    (hr : ∀ n ∈ m.nodes, m.in_range n) :
    ∃ blocks', m.assign_nodes_to_blocks = some { m with blocks := blocks' } ∧
      (blocks'.length : Int) = m.num_user_blocks * m.num_item_blocks ∧
      (all_block_nodes blocks').Perm m.nodes ∧
      ∀ (j : Nat) (b : Block α), blocks'[j]? = some b →
        b.nodes = m.nodes.filter (fun n => decide
          (span_flat_index (m.num_users / m.num_user_blocks + 1)
            (m.num_items / m.num_item_blocks + 1) m.num_item_blocks n = (j : Int))) := by
  have hlen : (m.blocks.length : Int) = m.num_user_blocks * m.num_item_blocks := by
    rw [hgrid]
    exact grid_length _ _ _ rfl rfl hu hi rfl
  have hidx : ∀ n ∈ m.nodes,
      blk_id (m.num_users / m.num_user_blocks + 1) (m.num_items / m.num_item_blocks + 1)
        m.num_item_blocks n =
      some (((span_flat_index (m.num_users / m.num_user_blocks + 1)
        (m.num_items / m.num_item_blocks + 1) m.num_item_blocks n).toNat : Nat) : Int) ∧
      (span_flat_index (m.num_users / m.num_user_blocks + 1)
        (m.num_items / m.num_item_blocks + 1) m.num_item_blocks n).toNat < m.blocks.length := by
    intro n hn
    obtain ⟨_, _, c3, c4, c5⟩ := blk_id_in_range m n hu hi (hr n hn)
    constructor
    · rw [c3, Int.toNat_of_nonneg c4]
    · omega
  obtain ⟨blocks', hloop, hl, hperm, hget⟩ := assign_loop_spec _ _ _ _ m.nodes m.blocks hidx
  refine ⟨blocks', ?_, ?_, ?_, ?_⟩
  · have hm := hr
    cases hnodes : m.nodes with
    | nil =>
      have hu0 : m.num_user_blocks ≠ 0 := by omega
      have hi0 : m.num_item_blocks ≠ 0 := by omega
      rw [hnodes] at hloop
      simp only [assign_loop, Option.some.injEq] at hloop
      simp [Matrix.assign_nodes_to_blocks, cdiv, hu0, hi0, hnodes, assign_loop, hloop]
    | cons n rest =>
      have hn : n ∈ m.nodes := by rw [hnodes]; exact List.mem_cons_self _ _
      obtain ⟨c1, c2, _⟩ := blk_id_in_range m n hu hi (hr n hn)
      rw [hnodes] at hloop
      simp only [Matrix.assign_nodes_to_blocks, c1, c2, hnodes, hloop]
  · omega
  · have h0 : all_block_nodes m.blocks = [] := by
      rw [hgrid]; exact all_block_nodes_grid _ rfl
    simpa [h0] using hperm
  · intro j b hb
    have hj : j < m.blocks.length := by
      have := (List.getElem?_eq_some_iff.mp hb).1
      omega
    have hb0 := hget j m.blocks[j] (List.getElem?_eq_getElem hj)
    rw [hb] at hb0
    have hb1 := Option.some.inj hb0
    have he : (m.blocks[j]).nodes = [] := by
      apply grid_nodes_empty ({ m with blocks := [] } : Matrix α) rfl j
      rw [← hgrid]
      exact List.getElem?_eq_getElem hj
    rw [hb1]
    simp only [he, List.nil_append]
    apply List.filter_congr
    intro n hn
    obtain ⟨_, _, _, c4, _⟩ := blk_id_in_range m n hu hi (hr n hn)
    simp only [decide_eq_decide]
    constructor
    · intro h; omega
    · intro h; omega

theorem demoLib_conforms : demoLib.Conforms := by
  refine ⟨fun _ l => List.reverse_perm l, fun lt l => List.perm_insertionSort _ l, ?_⟩
  intro lt l htrans hasym
  haveI : IsTotal (Node Int) (fun a b => lt b a = false) := ⟨by
    intro a b
    cases h : lt b a
    · exact Or.inl rfl
    · exact Or.inr (hasym b a h)⟩
  haveI : IsTrans (Node Int) (fun a b => lt b a = false) := ⟨by
    intro a b c hab hbc
    exact htrans c b a hbc hab⟩
  exact List.sorted_insertionSort (fun a b => lt b a = false) l

theorem all_block_nodes_sorted (lib : StdLib α) (hlib : lib.Conforms) (m : Matrix α) :
    (all_block_nodes (m.sort_nodes_by_user_id lib).blocks).Perm (all_block_nodes m.blocks) := by
  unfold Matrix.sort_nodes_by_user_id all_block_nodes
  simp only
  induction m.blocks with
  | nil => simp
  | cons b bs ih =>
    simp only [List.map_cons, List.flatMap_cons]
    exact (hlib.2.1 _ _).append ih

theorem length_all_block_nodes (blocks : List (Block α)) :
    (blocks.map (fun b => b.nodes.length)).sum = (all_block_nodes blocks).length := by
  unfold all_block_nodes
  induction blocks with
  | nil => simp
  | cons b bs ih => simp [ih]

theorem mem_all_block_nodes {blocks : List (Block α)} {b : Block α} {n : Node α}
    (hb : b ∈ blocks) (hn : n ∈ b.nodes) : n ∈ all_block_nodes blocks := by
  unfold all_block_nodes
  exact List.mem_flatMap.mpr ⟨b, hb, hn⟩

/-- The state before `assign_nodes_to_blocks` carries the grid of `initialize_blocks`. -/
theorem remapped_grid [Zero α] {lib : StdLib α} {dp : DataParams α} {m : Matrix α}
    (hm : Matrix.remapped lib dp = some m) :
    m.blocks = ({ m with blocks := [] } : Matrix α).initialize_blocks.blocks := by
  obtain ⟨h1, h2, h3, _⟩ := remapped_frame hm
  rw [h1, initialize_blocks_eq, initialize_blocks_eq]
  simp [Matrix.init, h2, h3]

/-- C1 (partition totality): for a matrix under construction whose remapped training
records have dense ids inside `[1, num_users] x [1, num_items]`, on a grid with
`num_user_blocks ≥ 1` and `num_item_blocks ≥ 1`, the constructor finishes and the records
of all blocks together (after `assign_nodes_to_blocks` and `sort_nodes_by_user_id`) are a
permutation of the training list `nodes`: the block sizes add up to `nodes.size()`, and
every record of a block is a training record. -/
theorem partition_totality [Zero α] (lib : StdLib α) (hlib : lib.Conforms)
    (dp : DataParams α) (m : Matrix α) (hm : Matrix.remapped lib dp = some m)
    (hu : 1 ≤ dp.num_user_blocks) (hi : 1 ≤ dp.num_item_blocks)
    (hr : ∀ n ∈ m.nodes, 1 ≤ n.user_id ∧ n.user_id ≤ m.num_users ∧
      1 ≤ n.item_id ∧ n.item_id ≤ m.num_items) :
    ∃ M, Matrix.create lib dp = some M ∧ M.nodes = m.nodes ∧ M.nodes_test = m.nodes_test ∧
      (all_block_nodes M.blocks).Perm M.nodes ∧
      (M.blocks.map (fun b => b.nodes.length)).sum = M.nodes.length ∧
      ∀ b ∈ M.blocks, ∀ n ∈ b.nodes, n ∈ M.nodes := by
  obtain ⟨_, h2, h3, _⟩ := remapped_frame hm
  obtain ⟨blocks', hassign, _, hperm, _⟩ :=
    assign_nodes_to_blocks_spec m (by omega) (by omega) (remapped_grid hm) hr
  have hP : (all_block_nodes
      (({ m with blocks := blocks' } : Matrix α).sort_nodes_by_user_id lib).blocks).Perm
      m.nodes := (all_block_nodes_sorted lib hlib _).trans hperm
  refine ⟨({ m with blocks := blocks' } : Matrix α).sort_nodes_by_user_id lib,
    ?_, rfl, rfl, hP, ?_, ?_⟩
  · simp [Matrix.create, hm, hassign]
  · rw [length_all_block_nodes]
    exact hP.length_eq
  · intro b hb n hn
    exact hP.subset (mem_all_block_nodes hb hn)

theorem sampleRemapped_eq : Matrix.remapped demoLib sampleParams = some sampleRemapped := by
  decide

theorem partition_totality_witness :
    ∃ M, Matrix.create demoLib sampleParams = some M ∧ M.nodes = sampleRemapped.nodes ∧
      M.nodes_test = sampleRemapped.nodes_test ∧
      (all_block_nodes M.blocks).Perm M.nodes ∧
      (M.blocks.map (fun b => b.nodes.length)).sum = M.nodes.length ∧
      ∀ b ∈ M.blocks, ∀ n ∈ b.nodes, n ∈ M.nodes :=
  partition_totality demoLib demoLib_conforms sampleParams sampleRemapped
    sampleRemapped_eq (by decide) (by decide) (by decide)

theorem wrap32_of_is_int (x : Int) (h : is_int x) : wrap32 x = x := by
  unfold is_int at h
  unfold wrap32
  omega

/-- Within the range of `int` the product of line 33 does not wrap: the grid is the one of
`Matrix.initialize_blocks`. -/
theorem initialize_blocks_int32_eq (m : Matrix α)
    (h : is_int (m.num_user_blocks * m.num_item_blocks)) :
    m.initialize_blocks_int32 = m.initialize_blocks := by
  unfold Matrix.initialize_blocks_int32 Matrix.initialize_blocks
  rw [wrap32_of_is_int _ h]

/-- Span and index of lines 81-87 in `int`, for an id inside `[1, n]`, `n` an `int`. -/
theorem span_index_int32 (n b u : Int) (hn : n ≤ 2147483647) (hb : 1 ≤ b) (h1 : 1 ≤ u)
    (hu : u ≤ n) :
    ∃ l r, blk_len_int32 n b = some l ∧ cdiv (wrap32 (u - 1)) l = some r ∧
      0 ≤ r ∧ r < b := by
  obtain ⟨a1, a2, a3, a4⟩ := span_index_bounds n b u hb h1 hu
  have hw : wrap32 (u - 1) = u - 1 := wrap32_of_is_int _ ⟨by omega, by omega⟩
  have hq0 : 0 ≤ n / b := Int.ediv_nonneg (by omega) (by omega)
  have hqn : n / b ≤ n := Int.ediv_le_self b (by omega)
  by_cases hfit : n / b + 1 ≤ 2147483647
  · refine ⟨n / b + 1, (u - 1) / (n / b + 1), ?_, ?_, a3, a4⟩
    · simp only [blk_len_int32, a1]
      rw [wrap32_of_is_int _ ⟨by omega, hfit⟩]
    · rw [hw]; exact a2
  · have hq : n / b + 1 = 2147483648 := by omega
    refine ⟨-2147483648, 0, ?_, ?_, le_refl _, by omega⟩
    · simp only [blk_len_int32, a1, hq]
      rfl
    · rw [hw]
      have hne : (-2147483648 : Int) ≠ 0 := by decide
      simp only [cdiv, hne, if_false]
      have h2 : Int.tdiv (u - 1) (-2147483648) = -(Int.tdiv (u - 1) 2147483648) :=
        Int.tdiv_neg (u - 1) 2147483648
      rw [h2, Int.tdiv_eq_ediv (by omega) (by decide)]
      have h3 : (u - 1) / 2147483648 = 0 := by omega
      rw [h3]
      rfl

/-- The span of line 81 wraps for `num_users = 2147483647` on one block row; the row index
of the last user is still 0. -/
theorem span_wrap_eval :
    blk_len_int32 2147483647 1 = some (-2147483648) ∧
    blk_u_id_int32 (-2147483648) (⟨2147483647, 1, 2147483647, 1, 5⟩ : Node Int) = some 0 := by
  decide

/-- C3, as stated, fails: on a grid of 65536 x 65536 blocks (one user, one item, the
record of user 1 and item 1) the product of line 33 wraps in `int` to 0, so
`initialize_blocks` creates no block, while the flat index of the record is 0:
`blocks[blk_id]` of line 89 is outside the vector. -/
theorem block_index_overflow_counterexample :
    1 ≤ overflowGrid.num_users ∧ 1 ≤ overflowGrid.num_items ∧
    1 ≤ overflowGrid.num_user_blocks ∧ 1 ≤ overflowGrid.num_item_blocks ∧
    overflowGrid.nodes = [⟨1, 1, 1, 1, 5⟩] ∧
    (∀ n ∈ overflowGrid.nodes, 1 ≤ n.user_id ∧ n.user_id ≤ overflowGrid.num_users ∧
      1 ≤ n.item_id ∧ n.item_id ≤ overflowGrid.num_items) ∧
    overflowGrid.initialize_blocks_int32.blocks = [] ∧
    blk_len_int32 overflowGrid.num_users overflowGrid.num_user_blocks = some 1 ∧
    blk_len_int32 overflowGrid.num_items overflowGrid.num_item_blocks = some 1 ∧
    blk_id_int32 1 1 overflowGrid.num_item_blocks (⟨1, 1, 1, 1, 5⟩ : Node Int) = some 0 ∧
    vec_at overflowGrid.initialize_blocks_int32.blocks 0 = none ∧
    push_node overflowGrid.initialize_blocks_int32.blocks 0 ⟨1, 1, 1, 1, 5⟩ = none := by
  decide

/-- C3 (amended, block index safety in `int` arithmetic): for `int` values
`num_users ≥ 1`, `num_items ≥ 1`, `num_user_blocks ≥ 1`, `num_item_blocks ≥ 1` such that
the product `num_user_blocks * num_item_blocks` fits an `int` (at most 2147483647), and a
record with `1 ≤ user_id ≤ num_users` and `1 ≤ item_id ≤ num_items`: the divisions of
lines 81-87 are defined, the row index is in `[0, num_user_blocks)`, the column index is
in `[0, num_item_blocks)`, and the flat index `blk_u_id * num_item_blocks + blk_i_id`
addresses an element of the vector made by `initialize_blocks`, whose size is
`num_user_blocks * num_item_blocks`: line 89 is defined on that vector.  All operations
are the 32-bit ones. -/
theorem block_index_safety_int32 (m : Matrix α) (node : Node α)
    (hnu : is_int m.num_users) (hni : is_int m.num_items)
    (hu : 1 ≤ m.num_user_blocks) (hi : 1 ≤ m.num_item_blocks)
    (hfit : m.num_user_blocks * m.num_item_blocks ≤ 2147483647)
    (hr : 1 ≤ node.user_id ∧ node.user_id ≤ m.num_users ∧
      1 ≤ node.item_id ∧ node.item_id ≤ m.num_items) :
    ((({ m with blocks := [] } : Matrix α).initialize_blocks_int32.blocks.length : Nat) : Int)
      = m.num_user_blocks * m.num_item_blocks ∧
    ∃ lu li r c : Int,
      blk_len_int32 m.num_users m.num_user_blocks = some lu ∧
      blk_len_int32 m.num_items m.num_item_blocks = some li ∧
      blk_u_id_int32 lu node = some r ∧ 0 ≤ r ∧ r < m.num_user_blocks ∧
      blk_i_id_int32 li node = some c ∧ 0 ≤ c ∧ c < m.num_item_blocks ∧
      blk_id_int32 lu li m.num_item_blocks node = some (r * m.num_item_blocks + c) ∧
      0 ≤ r * m.num_item_blocks + c ∧
      r * m.num_item_blocks + c < m.num_user_blocks * m.num_item_blocks ∧
      (vec_at ({ m with blocks := [] } : Matrix α).initialize_blocks_int32.blocks
        (r * m.num_item_blocks + c)).isSome = true ∧
      (push_node ({ m with blocks := [] } : Matrix α).initialize_blocks_int32.blocks
        (r * m.num_item_blocks + c) node).isSome = true := by
  obtain ⟨h1, h2, h3, h4⟩ := hr
  have hprod0 : 0 ≤ m.num_user_blocks * m.num_item_blocks :=
    Int.mul_nonneg (by omega) (by omega)
  have hgrid : ({ m with blocks := [] } : Matrix α).initialize_blocks_int32 =
      ({ m with blocks := [] } : Matrix α).initialize_blocks :=
    initialize_blocks_int32_eq _ ⟨by simp only; omega, by simp only; omega⟩
  have hlen := grid_length m.num_user_blocks m.num_item_blocks
    ({ m with blocks := [] } : Matrix α) rfl rfl hu hi rfl
  obtain ⟨lu, r, a1, a2, a3, a4⟩ :=
    span_index_int32 m.num_users m.num_user_blocks node.user_id hnu.2 hu h1 h2
  obtain ⟨li, c, b1, b2, b3, b4⟩ :=
    span_index_int32 m.num_items m.num_item_blocks node.item_id hni.2 hi h3 h4
  have hb := flat_index_bounds _ _ _ _ a3 a4 b3 b4
  have hrow0 : 0 ≤ r * m.num_item_blocks := Int.mul_nonneg a3 (by omega)
  have hw1 : wrap32 (r * m.num_item_blocks) = r * m.num_item_blocks :=
    wrap32_of_is_int _ ⟨by omega, by omega⟩
  have hw2 : wrap32 (r * m.num_item_blocks + c) = r * m.num_item_blocks + c :=
    wrap32_of_is_int _ ⟨by omega, by omega⟩
  rw [hgrid]
  obtain ⟨b, hb1, _⟩ := vec_at_some
    ({ m with blocks := [] } : Matrix α).initialize_blocks.blocks _ hb.1 (by omega)
  refine ⟨hlen, lu, li, r, c, a1, b1, a2, a3, a4, b2, b3, b4, ?_, hb.1, hb.2, ?_, ?_⟩
  · simp only [blk_id_int32, blk_u_id_int32, blk_i_id_int32, a2, b2, hw1, hw2]
  · rw [hb1]; rfl
  · simp only [push_node, hb1]; rfl

theorem block_index_safety_int32_witness :
    ((({ sampleRemapped with blocks := [] } : Matrix Int).initialize_blocks_int32.blocks.length
        : Nat) : Int) = sampleRemapped.num_user_blocks * sampleRemapped.num_item_blocks ∧
    ∃ lu li r c : Int,
      blk_len_int32 sampleRemapped.num_users sampleRemapped.num_user_blocks = some lu ∧
      blk_len_int32 sampleRemapped.num_items sampleRemapped.num_item_blocks = some li ∧
      blk_u_id_int32 lu (⟨3, 2, 1, 1, 2⟩ : Node Int) = some r ∧
      0 ≤ r ∧ r < sampleRemapped.num_user_blocks ∧
      blk_i_id_int32 li (⟨3, 2, 1, 1, 2⟩ : Node Int) = some c ∧
      0 ≤ c ∧ c < sampleRemapped.num_item_blocks ∧
      blk_id_int32 lu li sampleRemapped.num_item_blocks (⟨3, 2, 1, 1, 2⟩ : Node Int)
        = some (r * sampleRemapped.num_item_blocks + c) ∧
      0 ≤ r * sampleRemapped.num_item_blocks + c ∧
      r * sampleRemapped.num_item_blocks + c
        < sampleRemapped.num_user_blocks * sampleRemapped.num_item_blocks ∧
      (vec_at ({ sampleRemapped with blocks := [] } : Matrix Int).initialize_blocks_int32.blocks
        (r * sampleRemapped.num_item_blocks + c)).isSome = true ∧
      (push_node
        ({ sampleRemapped with blocks := [] } : Matrix Int).initialize_blocks_int32.blocks
        (r * sampleRemapped.num_item_blocks + c) ⟨3, 2, 1, 1, 2⟩).isSome = true :=
  block_index_safety_int32 sampleRemapped ⟨3, 2, 1, 1, 2⟩ (by decide) (by decide)
    (by decide) (by decide) (by decide) (by decide)

theorem iota_fold (v : List Int) (k : Nat) (hk : k ≤ v.length) :
    (List.range k).foldl (fun (v : List Int) (i : Nat) => v.set i ((i : Int) + 1)) v =
      (List.range k).map (fun (i : Nat) => (i : Int) + 1) ++ v.drop k := by
  induction k with
  | zero => simp
  | succ k ih =>
    have hlt : k < v.length := by omega
    rw [List.range_succ, List.foldl_append, ih (by omega)]
    simp only [List.foldl_cons, List.foldl_nil, List.map_append, List.map_cons, List.map_nil]
    rw [List.set_append_right _ _ (by simp)]
    simp only [List.length_map, List.length_range, Nat.sub_self]
    rw [List.drop_eq_getElem_cons hlt, List.set_cons_zero, List.append_assoc,
      List.singleton_append]

/-- The loop of line 64 fills the vector with `1, 2, ..., size`. -/
theorem generate_mapping_vector_identity (shuffle : List Int → List Int)
    (mapping_vec : List Int) :
    generate_mapping_vector shuffle mapping_vec false =
      (List.range mapping_vec.length).map (fun (i : Nat) => (i : Int) + 1) := by
  simp [generate_mapping_vector, iota_fold mapping_vec mapping_vec.length (le_refl _)]

theorem generate_mapping_vector_perm (shuffle : List Int → List Int)
    (hshuffle : ∀ l, (shuffle l).Perm l) (mapping_vec : List Int) (randomize : Bool) :
    (generate_mapping_vector shuffle mapping_vec randomize).Perm
      ((List.range mapping_vec.length).map (fun (i : Nat) => (i : Int) + 1)) := by
  cases randomize with
  | false => rw [generate_mapping_vector_identity]
  | true =>
    have h := hshuffle ((List.range mapping_vec.length).map (fun (i : Nat) => (i : Int) + 1))
    simpa [generate_mapping_vector, iota_fold mapping_vec mapping_vec.length (le_refl _)]
      using h

theorem mem_iota (n : Nat) (x : Int) :
    x ∈ (List.range n).map (fun (i : Nat) => (i : Int) + 1) ↔ 1 ≤ x ∧ x ≤ (n : Int) := by
  simp only [List.mem_map, List.mem_range]
  constructor
  · rintro ⟨i, hi, rfl⟩; omega
  · rintro ⟨h1, h2⟩
    exact ⟨(x - 1).toNat, by omega, by omega⟩

theorem nodup_iota (n : Nat) :
    ((List.range n).map (fun (i : Nat) => (i : Int) + 1)).Nodup := by
  apply List.Nodup.map _ (List.nodup_range n)
  intro a b h
  simp only at h
  omega

/-- C4 (bijection property): for a vector of any length `count` and both values of
`randomize`, with the shuffle an arbitrary reordering, `generate_mapping_vector` leaves a
vector of the same length that is a permutation of `[1, count]`: every entry lies in
`[1, count]` and every value of `[1, count]` occurs exactly once. -/
theorem mapping_bijection (shuffle : List Int → List Int)
    (hshuffle : ∀ l, (shuffle l).Perm l) (mapping_vec : List Int) (randomize : Bool) :
    (generate_mapping_vector shuffle mapping_vec randomize).length = mapping_vec.length ∧
    (generate_mapping_vector shuffle mapping_vec randomize).Perm
      ((List.range mapping_vec.length).map (fun (i : Nat) => (i : Int) + 1)) ∧
    (∀ x ∈ generate_mapping_vector shuffle mapping_vec randomize,
      1 ≤ x ∧ x ≤ (mapping_vec.length : Int)) ∧
    (∀ x : Int, 1 ≤ x → x ≤ (mapping_vec.length : Int) →
      (generate_mapping_vector shuffle mapping_vec randomize).count x = 1) := by
  have hp := generate_mapping_vector_perm shuffle hshuffle mapping_vec randomize
  refine ⟨by simpa using hp.length_eq, hp, ?_, ?_⟩
  · intro x hx
    exact (mem_iota _ x).mp (hp.subset hx)
  · intro x h1 h2
    rw [hp.count_eq]
    exact List.count_eq_one_of_mem (nodup_iota _) ((mem_iota _ x).mpr ⟨h1, h2⟩)

theorem mapping_bijection_witness :
    (generate_mapping_vector List.reverse [0, 0, 0] true).length = [0, 0, 0].length ∧
    (generate_mapping_vector List.reverse [0, 0, 0] true).Perm
      ((List.range [0, 0, 0].length).map (fun (i : Nat) => (i : Int) + 1)) ∧
    (∀ x ∈ generate_mapping_vector List.reverse [0, 0, 0] true,
      1 ≤ x ∧ x ≤ (([0, 0, 0] : List Int).length : Int)) ∧
    (∀ x : Int, 1 ≤ x → x ≤ (([0, 0, 0] : List Int).length : Int) →
      (generate_mapping_vector List.reverse [0, 0, 0] true).count x = 1) :=
  mapping_bijection List.reverse (fun l => List.reverse_perm l) [0, 0, 0] true

theorem foldl_max_ge (l : List Int) (a : Int) :
    a ≤ l.foldl max a ∧ ∀ x ∈ l, x ≤ l.foldl max a := by
  induction l generalizing a with
  | nil => simp
  | cons y ys ih =>
    obtain ⟨h1, h2⟩ := ih (max a y)
    simp only [List.foldl_cons, List.mem_cons]
    refine ⟨le_trans (le_max_left a y) h1, ?_⟩
    rintro x (rfl | hx)
    · exact le_trans (le_max_right a x) h1
    · exact h2 x hx

theorem foldl_max_mem (l : List Int) (a : Int) :
    l.foldl max a = a ∨ l.foldl max a ∈ l := by
  induction l generalizing a with
  | nil => simp
  | cons y ys ih =>
    simp only [List.foldl_cons, List.mem_cons]
    rcases ih (max a y) with h | h
    · rw [h]
      rcases max_choice a y with h' | h'
      · exact Or.inl h'
      · exact Or.inr (Or.inl h')
    · exact Or.inr (Or.inr h)

/-- Population sizes after both inputs were read: the largest original id seen, or 0. -/
theorem read_inputs_num_users [Zero α] (dp : DataParams α) :
    0 ≤ (Matrix.read_inputs dp).num_users ∧
    (∀ x ∈ read_user_ids dp.training ++ read_user_ids dp.test,
      x ≤ (Matrix.read_inputs dp).num_users) ∧
    ((Matrix.read_inputs dp).num_users = 0 ∨
      (Matrix.read_inputs dp).num_users ∈ read_user_ids dp.training ++ read_user_ids dp.test)
    := by
  rw [read_inputs_eq]
  simp only
  have a := foldl_max_ge (read_user_ids dp.training) 0
  have b := foldl_max_ge (read_user_ids dp.test) ((read_user_ids dp.training).foldl max 0)
  have c := foldl_max_mem (read_user_ids dp.training) 0
  have d := foldl_max_mem (read_user_ids dp.test) ((read_user_ids dp.training).foldl max 0)
  refine ⟨le_trans a.1 b.1, ?_, ?_⟩
  · intro x hx
    rcases List.mem_append.mp hx with h | h
    · exact le_trans (a.2 x h) b.1
    · exact b.2 x h
  · rcases d with h | h
    · rw [h]
      rcases c with h' | h'
      · exact Or.inl h'
      · exact Or.inr (List.mem_append_left _ h')
    · exact Or.inr (List.mem_append_right _ h)

theorem read_inputs_num_items [Zero α] (dp : DataParams α) :
    0 ≤ (Matrix.read_inputs dp).num_items ∧
    (∀ x ∈ read_item_ids dp.training ++ read_item_ids dp.test,
      x ≤ (Matrix.read_inputs dp).num_items) ∧
    ((Matrix.read_inputs dp).num_items = 0 ∨
      (Matrix.read_inputs dp).num_items ∈ read_item_ids dp.training ++ read_item_ids dp.test)
    := by
  rw [read_inputs_eq]
  simp only
  have a := foldl_max_ge (read_item_ids dp.training) 0
  have b := foldl_max_ge (read_item_ids dp.test) ((read_item_ids dp.training).foldl max 0)
  have c := foldl_max_mem (read_item_ids dp.training) 0
  have d := foldl_max_mem (read_item_ids dp.test) ((read_item_ids dp.training).foldl max 0)
  refine ⟨le_trans a.1 b.1, ?_, ?_⟩
  · intro x hx
    rcases List.mem_append.mp hx with h | h
    · exact le_trans (a.2 x h) b.1
    · exact b.2 x h
  · rcases d with h | h
    · rw [h]
      rcases c with h' | h'
      · exact Or.inl h'
      · exact Or.inr (List.mem_append_left _ h')
    · exact Or.inr (List.mem_append_right _ h)

/-- The mapping vector for a population of `n ≥ 0` is a permutation of `[1, n]`. -/
theorem mapping_of_perm (lib : StdLib α) (hlib : lib.Conforms) (k : Nat) (n : Int)
    (randomize : Bool) :
    (mapping_of lib k n randomize).Perm
      ((List.range n.toNat).map (fun (i : Nat) => (i : Int) + 1)) := by
  have := generate_mapping_vector_perm (lib.random_shuffle k) (hlib.1 k)
    (List.replicate n.toNat 0) randomize
  simpa [mapping_of] using this

theorem mapping_of_length (lib : StdLib α) (hlib : lib.Conforms) (k : Nat) (n : Int)
    (randomize : Bool) : (mapping_of lib k n randomize).length = n.toNat := by
  simpa using (mapping_of_perm lib hlib k n randomize).length_eq

theorem mapping_of_mem (lib : StdLib α) (hlib : lib.Conforms) (k : Nat) (n : Int)
    (randomize : Bool) (x : Int) :
    x ∈ mapping_of lib k n randomize ↔ 1 ≤ x ∧ x ≤ (n.toNat : Int) := by
  rw [(mapping_of_perm lib hlib k n randomize).mem_iff, mem_iota]

/-- Whenever `assign_user_and_item_id` finishes, its output is the input with every
record remapped, in the same order. -/
theorem assign_user_and_item_id_inv (um im : List Int) (nodes : List (Node α)) :
    ∀ nodes', assign_user_and_item_id nodes um im = some nodes' →
      List.Forall₂ (Remap um im) nodes nodes' := by
  induction nodes with
  | nil =>
    intro nodes' h
    simp only [assign_user_and_item_id, Option.some.injEq] at h
    subst h
    exact List.Forall₂.nil
  | cons n rest ih =>
    intro nodes' h
    unfold assign_user_and_item_id at h
    split at h
    · rename_i u i hu hi
      split at h
      · rename_i rest' hrest
        cases h
        exact List.Forall₂.cons ⟨hu, hi, rfl, rfl, rfl⟩ (ih rest' hrest)
      · cases h
    · cases h

/-- The lookups of `assign_user_and_item_id` are all defined when every original id is
inside `[1, size]` of its mapping vector. -/
theorem assign_user_and_item_id_ok (um im : List Int) (nodes : List (Node α))
    (h : ∀ n ∈ nodes, 1 ≤ n.orig_user_id ∧ n.orig_user_id ≤ (um.length : Int) ∧
      1 ≤ n.orig_item_id ∧ n.orig_item_id ≤ (im.length : Int)) :
    ∃ nodes', assign_user_and_item_id nodes um im = some nodes' := by
  induction nodes with
  | nil => exact ⟨[], rfl⟩
  | cons n rest ih =>
    obtain ⟨h1, h2, h3, h4⟩ := h n (List.mem_cons_self _ _)
    obtain ⟨rest', hrest⟩ := ih (fun x hx => h x (List.mem_cons_of_mem _ hx))
    obtain ⟨u, hu, _⟩ := vec_at_some um (n.orig_user_id - 1) (by omega) (by omega)
    obtain ⟨i, hi, _⟩ := vec_at_some im (n.orig_item_id - 1) (by omega) (by omega)
    refine ⟨{ n with user_id := u, item_id := i } :: rest', ?_⟩
    simp only [assign_user_and_item_id, hu, hi, hrest]

theorem vec_at_mem {β : Type} {v : List β} {k : Int} {b : β} (h : vec_at v k = some b) :
    b ∈ v := by
  obtain ⟨_, _, h3⟩ := vec_at_eq_some h
  obtain ⟨hlt, he⟩ := List.getElem?_eq_some_iff.mp h3
  rw [← he]
  exact List.getElem_mem hlt

theorem forall₂_right {β γ : Type} {R : β → γ → Prop} {l₁ : List β} {l₂ : List γ}
    (h : List.Forall₂ R l₁ l₂) : ∀ y ∈ l₂, ∃ x ∈ l₁, R x y := by
  induction h with
  | nil => simp
  | cons hxy _ ih =>
    intro y hy
    rcases List.mem_cons.mp hy with rfl | hy
    · exact ⟨_, List.mem_cons_self _ _, hxy⟩
    · obtain ⟨x, hx, hr⟩ := ih y hy
      exact ⟨x, List.mem_cons_of_mem _ hx, hr⟩

theorem forall₂_left {β γ : Type} {R : β → γ → Prop} {l₁ : List β} {l₂ : List γ}
    (h : List.Forall₂ R l₁ l₂) : ∀ x ∈ l₁, ∃ y ∈ l₂, R x y := by
  induction h with
  | nil => simp
  | cons hxy _ ih =>
    intro x hx
    rcases List.mem_cons.mp hx with rfl | hx
    · exact ⟨_, List.mem_cons_self _ _, hxy⟩
    · obtain ⟨y, hy, hr⟩ := ih x hx
      exact ⟨y, List.mem_cons_of_mem _ hy, hr⟩

/-- Unfolding of `Matrix.remapped`. -/
theorem remapped_inv [Zero α] {lib : StdLib α} {dp : DataParams α} {m : Matrix α}
    (hm : Matrix.remapped lib dp = some m) :
    ∃ nodes' test',
      assign_user_and_item_id (Matrix.read_inputs dp).nodes
        (mapping_of lib 0 (Matrix.read_inputs dp).num_users dp.randomize)
        (mapping_of lib 1 (Matrix.read_inputs dp).num_items dp.randomize) = some nodes' ∧
      assign_user_and_item_id (Matrix.read_inputs dp).nodes_test
        (mapping_of lib 0 (Matrix.read_inputs dp).num_users dp.randomize)
        (mapping_of lib 1 (Matrix.read_inputs dp).num_items dp.randomize) = some test' ∧
      m = { Matrix.read_inputs dp with nodes := nodes', nodes_test := test' } := by
  unfold Matrix.remapped at hm
  simp only at hm
  split at hm
  · cases hm
  · rename_i nodes' h1
    split at hm
    · cases hm
    · rename_i test' h2
      cases hm
      exact ⟨nodes', test', h1, h2, rfl⟩

/-- Unfolding of `Matrix.create`. -/
theorem create_inv [Zero α] {lib : StdLib α} {dp : DataParams α} {M : Matrix α}
    (hM : Matrix.create lib dp = some M) :
    ∃ m blocks', Matrix.remapped lib dp = some m ∧
      m.assign_nodes_to_blocks = some { m with blocks := blocks' } ∧
      M = ({ m with blocks := blocks' } : Matrix α).sort_nodes_by_user_id lib := by
  unfold Matrix.create at hM
  split at hM
  · cases hM
  · rename_i m hm
    split at hM
    · cases hM
    · rename_i m' hm'
      cases hM
      refine ⟨m, m'.blocks, hm, ?_, ?_⟩
      · rw [hm']
        unfold Matrix.assign_nodes_to_blocks at hm'
        split at hm'
        · simp only at hm'
          split at hm'
          · cases hm'; rfl
          · cases hm'
        · cases hm'
      · unfold Matrix.assign_nodes_to_blocks at hm'
        split at hm'
        · simp only at hm'
          split at hm'
          · cases hm'; rfl
          · cases hm'
        · cases hm'

/-- Original ids of the records read lie in `[1, num_users] x [1, num_items]` when they
are at least 1. -/
theorem read_inputs_orig_bounds [Zero α] (dp : DataParams α)
    (hpos : ∀ l ∈ dp.training ++ dp.test,
      1 ≤ (sscanf l Node.init).orig_user_id ∧ 1 ≤ (sscanf l Node.init).orig_item_id) :
    ∀ n ∈ (Matrix.read_inputs dp).nodes ++ (Matrix.read_inputs dp).nodes_test,
      1 ≤ n.orig_user_id ∧ n.orig_user_id ≤ (Matrix.read_inputs dp).num_users ∧
      1 ≤ n.orig_item_id ∧ n.orig_item_id ≤ (Matrix.read_inputs dp).num_items := by
  intro n hn
  have hu := (read_inputs_num_users dp).2.1
  have hi := (read_inputs_num_items dp).2.1
  have hn' : ∃ l ∈ dp.training ++ dp.test, sscanf l Node.init = n := by
    rw [read_inputs_eq] at hn
    simp only [List.mem_append, List.mem_map] at hn ⊢
    rcases hn with ⟨l, hl, rfl⟩ | ⟨l, hl, rfl⟩
    · exact ⟨l, Or.inl hl, rfl⟩
    · exact ⟨l, Or.inr hl, rfl⟩
  obtain ⟨l, hl, rfl⟩ := hn'
  obtain ⟨p1, p2⟩ := hpos l hl
  refine ⟨p1, hu _ ?_, p2, hi _ ?_⟩
  · simp only [read_user_ids, List.mem_append, List.mem_map] at hl ⊢
    rcases hl with hl | hl
    · exact Or.inl ⟨l, hl, rfl⟩
    · exact Or.inr ⟨l, hl, rfl⟩
  · simp only [read_item_ids, List.mem_append, List.mem_map] at hl ⊢
    rcases hl with hl | hl
    · exact Or.inl ⟨l, hl, rfl⟩
    · exact Or.inr ⟨l, hl, rfl⟩

/-- A remapped record has its dense ids inside the populations of the mapping vectors. -/
theorem remap_in_range (lib : StdLib α) (hlib : lib.Conforms) (nu ni : Int) (r : Bool)
    (hnu : 0 ≤ nu) (hni : 0 ≤ ni) {n n' : Node α}
    (h : Remap (mapping_of lib 0 nu r) (mapping_of lib 1 ni r) n n') :
    1 ≤ n'.user_id ∧ n'.user_id ≤ nu ∧ 1 ≤ n'.item_id ∧ n'.item_id ≤ ni := by
  obtain ⟨h1, h2, _⟩ := h
  have a := (mapping_of_mem lib hlib 0 nu r _).mp (vec_at_mem h1)
  have b := (mapping_of_mem lib hlib 1 ni r _).mp (vec_at_mem h2)
  omega

/-- With original ids at least 1, the remapping phase of the constructor is defined and
leaves both record lists with dense ids in range. -/
theorem remapped_ok [Zero α] (lib : StdLib α) (hlib : lib.Conforms) (dp : DataParams α)
    (hpos : ∀ l ∈ dp.training ++ dp.test,
      1 ≤ (sscanf l Node.init).orig_user_id ∧ 1 ≤ (sscanf l Node.init).orig_item_id) :
    ∃ m, Matrix.remapped lib dp = some m ∧
      ∀ n ∈ m.nodes ++ m.nodes_test, 1 ≤ n.user_id ∧ n.user_id ≤ m.num_users ∧
        1 ≤ n.item_id ∧ n.item_id ≤ m.num_items := by
  have hb := read_inputs_orig_bounds dp hpos
  have hnu := (read_inputs_num_users dp).1
  have hni := (read_inputs_num_items dp).1
  have hlu := mapping_of_length lib hlib 0 (Matrix.read_inputs dp).num_users dp.randomize
  have hli := mapping_of_length lib hlib 1 (Matrix.read_inputs dp).num_items dp.randomize
  obtain ⟨nodes', h1⟩ := assign_user_and_item_id_ok
    (mapping_of lib 0 (Matrix.read_inputs dp).num_users dp.randomize)
    (mapping_of lib 1 (Matrix.read_inputs dp).num_items dp.randomize)
    (Matrix.read_inputs dp).nodes (by
      intro n hn
      have := hb n (List.mem_append_left _ hn)
      omega)
  obtain ⟨test', h2⟩ := assign_user_and_item_id_ok
    (mapping_of lib 0 (Matrix.read_inputs dp).num_users dp.randomize)
    (mapping_of lib 1 (Matrix.read_inputs dp).num_items dp.randomize)
    (Matrix.read_inputs dp).nodes_test (by
      intro n hn
      have := hb n (List.mem_append_right _ hn)
      omega)
  refine ⟨{ Matrix.read_inputs dp with nodes := nodes', nodes_test := test' }, ?_, ?_⟩
  · simp only [Matrix.remapped, h1, h2]
  · intro n hn
    simp only [List.mem_append] at hn
    rcases hn with hn | hn
    · obtain ⟨x, _, hx⟩ := forall₂_right (assign_user_and_item_id_inv _ _ _ _ h1) n hn
      exact remap_in_range lib hlib _ _ _ hnu hni hx
    · obtain ⟨x, _, hx⟩ := forall₂_right (assign_user_and_item_id_inv _ _ _ _ h2) n hn
      exact remap_in_range lib hlib _ _ _ hnu hni hx

/-- On a grid with at least one row and one column the constructor finishes as soon as
the remapping phase does with dense training ids in range. -/
theorem create_ok [Zero α] (lib : StdLib α) (dp : DataParams α) (m : Matrix α)
    (hm : Matrix.remapped lib dp = some m)
    (hu : 1 ≤ dp.num_user_blocks) (hi : 1 ≤ dp.num_item_blocks)
    (hr : ∀ n ∈ m.nodes, m.in_range n) :
    ∃ M, Matrix.create lib dp = some M := by
  obtain ⟨_, h2, h3, _⟩ := remapped_frame hm
  obtain ⟨blocks', hassign, _⟩ :=
    assign_nodes_to_blocks_spec m (by omega) (by omega) (remapped_grid hm) hr
  refine ⟨({ m with blocks := blocks' } : Matrix α).sort_nodes_by_user_id lib, ?_⟩
  simp only [Matrix.create, hm, hassign]

/-- C10 (dense ids in range): when every original user id and item id of the training
and test inputs is at least 1, every lookup `user_mapping[orig_user_id - 1]` and
`item_mapping[orig_item_id - 1]` of `assign_user_and_item_id` is inside its vector, the
remapping phase is defined, every record of `nodes` and `nodes_test` has
`1 ≤ user_id ≤ num_users` and `1 ≤ item_id ≤ num_items`, and this is the state of every
constructed matrix; the constructor does finish on a grid with `num_user_blocks ≥ 1` and
`num_item_blocks ≥ 1`. -/
theorem dense_ids_in_range [Zero α] (lib : StdLib α) (hlib : lib.Conforms)
    (dp : DataParams α)
    (hpos : ∀ l ∈ dp.training ++ dp.test,
      1 ≤ (sscanf l Node.init).orig_user_id ∧ 1 ≤ (sscanf l Node.init).orig_item_id) :
    (∀ n ∈ (Matrix.read_inputs dp).nodes ++ (Matrix.read_inputs dp).nodes_test,
      (vec_at (mapping_of lib 0 (Matrix.read_inputs dp).num_users dp.randomize)
        (n.orig_user_id - 1)).isSome = true ∧
      (vec_at (mapping_of lib 1 (Matrix.read_inputs dp).num_items dp.randomize)
        (n.orig_item_id - 1)).isSome = true) ∧
    (∃ m, Matrix.remapped lib dp = some m ∧
      ∀ n ∈ m.nodes ++ m.nodes_test, 1 ≤ n.user_id ∧ n.user_id ≤ m.num_users ∧
        1 ≤ n.item_id ∧ n.item_id ≤ m.num_items) ∧
    (1 ≤ dp.num_user_blocks → 1 ≤ dp.num_item_blocks →
      ∃ M, Matrix.create lib dp = some M) ∧
    (∀ M, Matrix.create lib dp = some M →
      ∀ n ∈ M.nodes ++ M.nodes_test, 1 ≤ n.user_id ∧ n.user_id ≤ M.num_users ∧
        1 ≤ n.item_id ∧ n.item_id ≤ M.num_items) := by
  obtain ⟨m, hm, hr⟩ := remapped_ok lib hlib dp hpos
  refine ⟨?_, ⟨m, hm, hr⟩, ?_, ?_⟩
  · intro n hn
    have hb := read_inputs_orig_bounds dp hpos n hn
    have hnu := (read_inputs_num_users dp).1
    have hni := (read_inputs_num_items dp).1
    have hlu := mapping_of_length lib hlib 0 (Matrix.read_inputs dp).num_users dp.randomize
    have hli := mapping_of_length lib hlib 1 (Matrix.read_inputs dp).num_items dp.randomize
    obtain ⟨u, hu, _⟩ := vec_at_some
      (mapping_of lib 0 (Matrix.read_inputs dp).num_users dp.randomize)
      (n.orig_user_id - 1) (by omega) (by omega)
    obtain ⟨i, hi, _⟩ := vec_at_some
      (mapping_of lib 1 (Matrix.read_inputs dp).num_items dp.randomize)
      (n.orig_item_id - 1) (by omega) (by omega)
    rw [hu, hi]
    exact ⟨rfl, rfl⟩
  · intro hu hi
    exact create_ok lib dp m hm hu hi (fun n hn => hr n (List.mem_append_left _ hn))
  · intro M hM
    obtain ⟨m0, blocks', hm0, _, hMeq⟩ := create_inv hM
    rw [hm] at hm0
    cases hm0
    subst hMeq
    exact hr

theorem dense_ids_in_range_witness :
    (∀ n ∈ (Matrix.read_inputs sampleParams).nodes ++
        (Matrix.read_inputs sampleParams).nodes_test,
      (vec_at (mapping_of demoLib 0 (Matrix.read_inputs sampleParams).num_users
        sampleParams.randomize) (n.orig_user_id - 1)).isSome = true ∧
      (vec_at (mapping_of demoLib 1 (Matrix.read_inputs sampleParams).num_items
        sampleParams.randomize) (n.orig_item_id - 1)).isSome = true) ∧
    (∃ m, Matrix.remapped demoLib sampleParams = some m ∧
      ∀ n ∈ m.nodes ++ m.nodes_test, 1 ≤ n.user_id ∧ n.user_id ≤ m.num_users ∧
        1 ≤ n.item_id ∧ n.item_id ≤ m.num_items) ∧
    (1 ≤ sampleParams.num_user_blocks → 1 ≤ sampleParams.num_item_blocks →
      ∃ M, Matrix.create demoLib sampleParams = some M) ∧
    (∀ M, Matrix.create demoLib sampleParams = some M →
      ∀ n ∈ M.nodes ++ M.nodes_test, 1 ≤ n.user_id ∧ n.user_id ≤ M.num_users ∧
        1 ≤ n.item_id ∧ n.item_id ≤ M.num_items) :=
  dense_ids_in_range demoLib demoLib_conforms sampleParams (by decide)

theorem vec_at_iota (n : Nat) (k x : Int)
    (h : vec_at ((List.range n).map (fun (i : Nat) => (i : Int) + 1)) k = some x) :
    x = k + 1 := by
  obtain ⟨h0, hlt, hget⟩ := vec_at_eq_some h
  simp only [List.length_map, List.length_range] at hlt
  rw [List.getElem?_map, List.getElem?_range hlt] at hget
  simp only [Option.map_some', Option.some.injEq] at hget
  omega

theorem mapping_of_identity (lib : StdLib α) (k : Nat) (n : Int) :
    mapping_of lib k n false = (List.range n.toNat).map (fun (i : Nat) => (i : Int) + 1) := by
  simp [mapping_of, generate_mapping_vector_identity]

/-- C9, as stated, fails.  (a) `randomize = false`, training `1 1 5`, test `2 1 3`:
`num_users` is 2 while the largest dense user id among the training records is 1.
(b) `randomize = true`, training `2 1 5`, no test line, a shuffle that reverses:
`num_users` is 2 while the only training record has dense user id 1. -/
theorem population_size_counterexample :
    testHeavyParams.training ≠ [] ∧
    (Matrix.create demoLib testHeavyParams).map
        (fun M => (M.num_users, (M.nodes.map (fun n => n.user_id)).max?))
      = some (2, some 1) ∧
    sparseParams.training ≠ [] ∧
    (Matrix.create demoLib sparseParams).map
        (fun M => (M.num_users, (M.nodes.map (fun n => n.user_id)).max?))
      = some (2, some 1) := by
  refine ⟨by decide, by decide, by decide, by decide⟩

/-- Identity mode: the population size is attained by a training record as soon as no
test id is above every training id. -/
theorem identity_max_attained (ids_train ids_test : List Int) (hne : ids_train ≠ [])
    (hpos : ∀ x ∈ ids_train, 1 ≤ x)
    (hcov : ∀ t ∈ ids_test, ∃ x ∈ ids_train, t ≤ x) :
    ids_test.foldl max (ids_train.foldl max 0) ∈ ids_train := by
  have a := foldl_max_ge ids_train 0
  have b := foldl_max_ge ids_test (ids_train.foldl max 0)
  have c := foldl_max_mem ids_train 0
  have d := foldl_max_mem ids_test (ids_train.foldl max 0)
  have hc : ids_train.foldl max 0 ∈ ids_train := by
    rcases c with h | h
    · obtain ⟨x, hx⟩ := List.exists_mem_of_ne_nil _ hne
      have := a.2 x hx
      have := hpos x hx
      omega
    · exact h
  rcases d with h | h
  · rw [h]; exact hc
  · obtain ⟨x, hx, hle⟩ := hcov _ h
    have h1 := a.2 x hx
    have h2 := b.1
    have : x = ids_test.foldl max (ids_train.foldl max 0) := by omega
    rw [← this]; exact hx

/-- C9 (amended): for a matrix built from a non-empty training input, all original ids of
both inputs at least 1: `num_users` and `num_items` are upper bounds of the dense
`user_id` / `item_id` of the training records `nodes`; with `randomize = false` and no
test user id (item id) above every training user id (item id), `num_users` (`num_items`)
is attained, so it is the maximum dense id among the training records.  On a grid with
`num_user_blocks ≥ 1` and `num_item_blocks ≥ 1` the matrix is built. -/
theorem population_size [Zero α] (lib : StdLib α) (hlib : lib.Conforms)
    (dp : DataParams α) (hne : dp.training ≠ [])
    (hpos : ∀ l ∈ dp.training ++ dp.test,
      1 ≤ (sscanf l Node.init).orig_user_id ∧ 1 ≤ (sscanf l Node.init).orig_item_id) :
    (1 ≤ dp.num_user_blocks → 1 ≤ dp.num_item_blocks →
      ∃ M, Matrix.create lib dp = some M) ∧
    ∀ M, Matrix.create lib dp = some M →
      (∀ n ∈ M.nodes, n.user_id ≤ M.num_users ∧ n.item_id ≤ M.num_items) ∧
      (dp.randomize = false →
        (∀ t ∈ read_user_ids dp.test, ∃ x ∈ read_user_ids dp.training, t ≤ x) →
        ∃ n ∈ M.nodes, n.user_id = M.num_users) ∧
      (dp.randomize = false →
        (∀ t ∈ read_item_ids dp.test, ∃ x ∈ read_item_ids dp.training, t ≤ x) →
        ∃ n ∈ M.nodes, n.item_id = M.num_items) := by
  obtain ⟨m, hm, hr⟩ := remapped_ok lib hlib dp hpos
  refine ⟨fun hu hi => create_ok lib dp m hm hu hi
    (fun n hn => hr n (List.mem_append_left _ hn)), ?_⟩
  intro M hM
  obtain ⟨m0, blocks', hm0, _, hMeq⟩ := create_inv hM
  rw [hm] at hm0
  cases hm0
  subst hMeq
  obtain ⟨nodes', test', h1, _, hmeq⟩ := remapped_inv hm
  have hF := assign_user_and_item_id_inv _ _ _ _ h1
  have hposU : ∀ x ∈ read_user_ids dp.training, 1 ≤ x := by
    intro x hx
    simp only [read_user_ids, List.mem_map] at hx
    obtain ⟨l, hl, rfl⟩ := hx
    exact (hpos l (List.mem_append_left _ hl)).1
  have hposI : ∀ x ∈ read_item_ids dp.training, 1 ≤ x := by
    intro x hx
    simp only [read_item_ids, List.mem_map] at hx
    obtain ⟨l, hl, rfl⟩ := hx
    exact (hpos l (List.mem_append_left _ hl)).2
  refine ⟨?_, ?_, ?_⟩
  · intro n hn
    have := hr n (List.mem_append_left _ hn)
    exact ⟨this.2.1, this.2.2.2⟩
  · intro hrand hcov
    have hmem := identity_max_attained (read_user_ids dp.training) (read_user_ids dp.test)
      (by simpa [read_user_ids] using hne) hposU hcov
    simp only [read_user_ids, List.mem_map] at hmem
    obtain ⟨l, hl, hlu⟩ := hmem
    have hnode : sscanf l Node.init ∈ (Matrix.read_inputs dp).nodes := by
      rw [read_inputs_eq]
      exact List.mem_map.mpr ⟨l, hl, rfl⟩
    obtain ⟨n', hn', hR⟩ := forall₂_left hF _ hnode
    refine ⟨n', by rw [hmeq]; exact hn', ?_⟩
    have hv := hR.1
    rw [hrand, mapping_of_identity] at hv
    have := vec_at_iota _ _ _ hv
    rw [hmeq, this, hlu]
    simp [read_inputs_eq, read_user_ids, Matrix.sort_nodes_by_user_id]
  · intro hrand hcov
    have hmem := identity_max_attained (read_item_ids dp.training) (read_item_ids dp.test)
      (by simpa [read_item_ids] using hne) hposI hcov
    simp only [read_item_ids, List.mem_map] at hmem
    obtain ⟨l, hl, hlu⟩ := hmem
    have hnode : sscanf l Node.init ∈ (Matrix.read_inputs dp).nodes := by
      rw [read_inputs_eq]
      exact List.mem_map.mpr ⟨l, hl, rfl⟩
    obtain ⟨n', hn', hR⟩ := forall₂_left hF _ hnode
    refine ⟨n', by rw [hmeq]; exact hn', ?_⟩
    have hv := hR.2.1
    rw [hrand, mapping_of_identity] at hv
    have := vec_at_iota _ _ _ hv
    rw [hmeq, this, hlu]
    simp [read_inputs_eq, read_item_ids, Matrix.sort_nodes_by_user_id]

/-- C8 fails on the code: in a grid of 1 row and 2 columns `initialize_blocks` makes
`1 * 2` blocks, but the block stored at flat index `0 * 2 + 1` (row 0, column 1) is
labelled `user_id = 1`, `item_id = 0`, since lines 35-36 divide by `num_user_blocks`
where the flat index of line 88 uses `num_item_blocks`. -/
theorem grid_labels_failing :
    (Matrix.init gridParams).initialize_blocks.blocks
      = [(⟨0, 0, []⟩ : Block Int), ⟨1, 0, []⟩] ∧
    vec_at (Matrix.init gridParams).initialize_blocks.blocks
      (0 * gridParams.num_item_blocks + 1) = some (⟨1, 0, []⟩ : Block Int) := by
  decide

/-- C5 fails on the code: on a 2 x 3 grid with training lines `1 1 5` and `3 1 4`
(identity mapping) the constructor puts the first record in the block labelled (0, 0)
and the second in the block labelled (1, 1); the labels differ in row and in column,
yet both blocks hold a record of dense item 1. -/
theorem block_disjointness_failing :
    (Matrix.create demoLib crossParams).map (fun M => M.blocks) =
      some [⟨0, 0, [⟨1, 1, 1, 1, 5⟩]⟩, ⟨0, 1, []⟩, ⟨1, 0, []⟩,
        ⟨1, 1, [⟨3, 1, 3, 1, 4⟩]⟩, ⟨2, 0, []⟩, ⟨2, 1, []⟩] ∧
    ∃ M, Matrix.create demoLib crossParams = some M ∧
      ∃ b1 ∈ M.blocks, ∃ b2 ∈ M.blocks,
        b1.user_id ≠ b2.user_id ∧ b1.item_id ≠ b2.item_id ∧
        ∃ n1 ∈ b1.nodes, ∃ n2 ∈ b2.nodes, n1.item_id = n2.item_id := by
  refine ⟨by decide, _, rfl, ⟨0, 0, [⟨1, 1, 1, 1, 5⟩]⟩, by decide,
    ⟨1, 1, [⟨3, 1, 3, 1, 4⟩]⟩, by decide, by decide, by decide,
    ⟨1, 1, 1, 1, 5⟩, by decide, ⟨3, 1, 3, 1, 4⟩, by decide, by decide⟩

theorem population_size_witness :
    (1 ≤ evenParams.num_user_blocks → 1 ≤ evenParams.num_item_blocks →
      ∃ M, Matrix.create demoLib evenParams = some M) ∧
    ∀ M, Matrix.create demoLib evenParams = some M →
      (∀ n ∈ M.nodes, n.user_id ≤ M.num_users ∧ n.item_id ≤ M.num_items) ∧
      (evenParams.randomize = false →
        (∀ t ∈ read_user_ids evenParams.test,
          ∃ x ∈ read_user_ids evenParams.training, t ≤ x) →
        ∃ n ∈ M.nodes, n.user_id = M.num_users) ∧
      (evenParams.randomize = false →
        (∀ t ∈ read_item_ids evenParams.test,
          ∃ x ∈ read_item_ids evenParams.training, t ≤ x) →
        ∃ n ∈ M.nodes, n.item_id = M.num_items) :=
  population_size demoLib demoLib_conforms evenParams (by decide) (by decide)

theorem inner_product_eq_sum [Ring α] (p q : Nat → α) (dim : Nat) (init : α) :
    inner_product p q dim init = init + ∑ d ∈ Finset.range dim, p d * q d := by
  unfold inner_product
  induction dim with
  | zero => simp
  | succ k ih =>
    rw [List.range_succ, List.foldl_append, ih, Finset.sum_range_succ]
    simp [add_assoc]

theorem inner_product_eq_list_sum [Ring α] (p q : Nat → α) (dim : Nat) :
    inner_product p q dim 0 = ((List.range dim).map (fun (d : Nat) => p d * q d)).sum := by
  unfold inner_product
  induction dim with
  | zero => simp
  | succ k ih =>
    rw [List.range_succ, List.foldl_append, ih]
    simp

/-- State of the inner loop of `sgd` after the first `k` dimensions: the first `k` cells
of both rows carry the simultaneous update, every other cell is as before. -/
theorem sgd_dims_eq [CommRing α] (step_size error : α) (p q : Int) (m : Model α) (k : Nat) :
    (List.range k).foldl (Model.sgd_dim step_size error p q) m =
      { m with
        P := spec_row_update step_size m.params_.lp error m.P m.Q p q k,
        Q := spec_row_update step_size m.params_.lq error m.Q m.P q p k } := by
  induction k with
  | zero =>
    have hP : spec_row_update step_size m.params_.lp error m.P m.Q p q 0 = m.P := by
      funext x
      simp only [spec_row_update, Nat.cast_zero, add_zero]
      rw [if_neg (by omega)]
    have hQ : spec_row_update step_size m.params_.lq error m.Q m.P q p 0 = m.Q := by
      funext x
      simp only [spec_row_update, Nat.cast_zero, add_zero]
      rw [if_neg (by omega)]
    simp [hP, hQ]
  | succ k ih =>
    rw [List.range_succ, List.foldl_append, ih]
    simp only [List.foldl_cons, List.foldl_nil, Model.sgd_dim]
    have hp : spec_row_update step_size m.params_.lp error m.P m.Q p q k (p + (k : Int))
        = m.P (p + (k : Int)) := by
      simp only [spec_row_update]
      rw [if_neg (by omega)]
    have hq : spec_row_update step_size m.params_.lq error m.Q m.P q p k (q + (k : Int))
        = m.Q (q + (k : Int)) := by
      simp only [spec_row_update]
      rw [if_neg (by omega)]
    rw [hp, hq]
    congr 1
    · funext x
      by_cases hx : x = p + (k : Int)
      · subst hx
        simp only [Function.update_same, spec_row_update]
        rw [if_pos (by push_cast; omega)]
        have : q + (p + (k : Int) - p) = q + (k : Int) := by ring
        rw [this]
        ring
      · rw [Function.update_noteq hx]
        simp only [spec_row_update]
        by_cases hr : p ≤ x ∧ x < p + (k : Int)
        · rw [if_pos hr, if_pos (by push_cast; omega)]
        · rw [if_neg hr, if_neg (by push_cast; omega)]
    · funext x
      by_cases hx : x = q + (k : Int)
      · subst hx
        simp only [Function.update_same, spec_row_update]
        rw [if_pos (by push_cast; omega)]
        have : p + (q + (k : Int) - q) = p + (k : Int) := by ring
        rw [this]
        ring
      · rw [Function.update_noteq hx]
        simp only [spec_row_update]
        by_cases hr : q ≤ x ∧ x < q + (k : Int)
        · rw [if_pos hr, if_pos (by push_cast; omega)]
        · rw [if_neg hr, if_neg (by push_cast; omega)]

/-- One record: the loop body of `sgd` is the simultaneous update of the spec. -/
theorem sgd_node_eq [CommRing α] (m : Model α) (node : Node α) :
    Model.sgd_node m.params_.dim m.params_.step_size m node = spec_update_record m node := by
  unfold Model.sgd_node spec_update_record
  simp only [sgd_dims_eq, inner_product_eq_list_sum]

theorem spec_update_record_params [CommRing α] (m : Model α) (node : Node α) :
    (spec_update_record m node).params_ = m.params_ := rfl

/-- C6 (SGD update rule, exact arithmetic in a commutative ring such as the reals): for
every block and factor state, `Model::sgd` yields the state obtained by processing the
records of the block in sequence order, where one record computes `error = rating -
dot(p, q)` once from the rows before the update and then sets, for every dimension `d`,
`p_new[d] = p[d] + step_size * (error * q[d] - lp * p[d])` and
`q_new[d] = q[d] + step_size * (error * p[d] - lq * q[d])`, both from the old `p[d]` and
`q[d]` (`spec_block_update`, `spec_update_record`, `spec_row_update`). -/
theorem sgd_update_rule [CommRing α] (m : Model α) (block_id : Int) (block : Block α) :
    m.sgd block_id block = spec_block_update m block := by
  unfold Model.sgd spec_block_update
  simp only
  generalize block.nodes = nodes
  induction nodes generalizing m with
  | nil => rfl
  | cons n rest ih =>
    simp only [List.foldl_cons]
    rw [sgd_node_eq, ← spec_update_record_params m n]
    exact ih (spec_update_record m n)

/-- C7 (`calc_error`, exact arithmetic in a ring such as the reals): for a record with
`1 ≤ user_id ≤ num_users` and `1 ≤ item_id ≤ num_items`, `Model::calc_error` returns
`rating - Σ_{d < dim} P[(user_id - 1) * dim + d] * Q[(item_id - 1) * dim + d]`, so row
`user_id - 1` of `P` is the latent vector of dense user `user_id`, and the object (`P`,
`Q` and the other members) is the same after the call.  The range of the ids keeps the
reads inside the two buffers; the equality itself does not depend on it. -/
theorem calc_error_value [Ring α] (m : Model α) (node : Node α)
    (_hu : 1 ≤ node.user_id ∧ node.user_id ≤ m.num_users_)
    (_hi : 1 ≤ node.item_id ∧ node.item_id ≤ m.num_items_) :
    (m.calc_error node).1 =
      node.rating - ∑ d ∈ Finset.range m.params_.dim,
        m.P ((node.user_id - 1) * (m.params_.dim : Int) + (d : Int)) *
        m.Q ((node.item_id - 1) * (m.params_.dim : Int) + (d : Int)) ∧
    (m.calc_error node).2 = m := by
  refine ⟨?_, rfl⟩
  simp only [Model.calc_error, inner_product_eq_sum, zero_add]

theorem calc_error_value_witness :
    (sampleModel.calc_error ⟨2, 1, 2, 1, 7⟩).1 =
      (7 : Int) - ∑ d ∈ Finset.range sampleModel.params_.dim,
        sampleModel.P (((2 : Int) - 1) * (sampleModel.params_.dim : Int) + (d : Int)) *
        sampleModel.Q (((1 : Int) - 1) * (sampleModel.params_.dim : Int) + (d : Int)) ∧
    (sampleModel.calc_error ⟨2, 1, 2, 1, 7⟩).2 = sampleModel :=
  calc_error_value sampleModel ⟨2, 1, 2, 1, 7⟩ (by decide) (by decide)

theorem Model.eq_of_fields {a b : Model α} (h1 : a.params_ = b.params_)
    (h2 : a.num_users_ = b.num_users_) (h3 : a.num_items_ = b.num_items_)
    (h4 : a.num_blocks_ = b.num_blocks_) (h5 : ∀ k, a.P k = b.P k)
    (h6 : ∀ k, a.Q k = b.Q k) : a = b := by
  cases a
  cases b
  simp only at h1 h2 h3 h4 h5 h6
  simp only [Model.mk.injEq]
  exact ⟨h1, h2, h3, h4, funext h5, funext h6⟩

/-- A cell `r * dim + d` with `d < dim` lies in the row of `id` only for `id - 1 = r`. -/
theorem in_row_cell (dim : Nat) (id r : Int) (d : Nat) (hd : d < dim)
    (h : in_row dim id (r * (dim : Int) + (d : Int))) : id - 1 = r := by
  obtain ⟨h1, h2⟩ := h
  have hdim : (0 : Int) ≤ (dim : Int) := Int.ofNat_nonneg _
  have hdlt : (d : Int) < (dim : Int) := by exact_mod_cast hd
  by_contra hne
  rcases lt_or_gt_of_ne hne with hlt | hgt
  · have h3 : (id - 1 + 1) * (dim : Int) ≤ r * (dim : Int) :=
      Int.mul_le_mul_of_nonneg_right (by omega) hdim
    have h4 : (id - 1 + 1) * (dim : Int) = (id - 1) * (dim : Int) + (dim : Int) := by ring
    omega
  · have h3 : (r + 1) * (dim : Int) ≤ (id - 1) * (dim : Int) :=
      Int.mul_le_mul_of_nonneg_right (by omega) hdim
    have h4 : (r + 1) * (dim : Int) = r * (dim : Int) + (dim : Int) := by ring
    omega

/-- Rows of different dense ids share no cell. -/
theorem in_row_disjoint (dim : Nat) (id1 id2 k : Int) (hne : id1 ≠ id2)
    (h1 : in_row dim id1 k) : ¬ in_row dim id2 k := by
  intro h2
  obtain ⟨a1, a2⟩ := h1
  obtain ⟨b1, b2⟩ := h2
  have hdim : (0 : Int) ≤ (dim : Int) := Int.ofNat_nonneg _
  rcases lt_or_gt_of_ne hne with hlt | hgt
  · have h3 : (id1 - 1 + 1) * (dim : Int) ≤ (id2 - 1) * (dim : Int) :=
      Int.mul_le_mul_of_nonneg_right (by omega) hdim
    have h4 : (id1 - 1 + 1) * (dim : Int) = (id1 - 1) * (dim : Int) + (dim : Int) := by ring
    omega
  · have h3 : (id2 - 1 + 1) * (dim : Int) ≤ (id1 - 1) * (dim : Int) :=
      Int.mul_le_mul_of_nonneg_right (by omega) hdim
    have h4 : (id2 - 1 + 1) * (dim : Int) = (id2 - 1) * (dim : Int) + (dim : Int) := by ring
    omega

theorem spec_update_record_P_outside [CommRing α] (m : Model α) (node : Node α) (k : Int)
    (h : ¬ in_row m.params_.dim node.user_id k) :
    (spec_update_record m node).P k = m.P k := by
  unfold in_row at h
  simp only [spec_update_record, spec_row_update]
  rw [if_neg h]

theorem spec_update_record_Q_outside [CommRing α] (m : Model α) (node : Node α) (k : Int)
    (h : ¬ in_row m.params_.dim node.item_id k) :
    (spec_update_record m node).Q k = m.Q k := by
  unfold in_row at h
  simp only [spec_update_record, spec_row_update]
  rw [if_neg h]

theorem spec_fold_params [CommRing α] (nodes : List (Node α)) (m : Model α) :
    (nodes.foldl spec_update_record m).params_ = m.params_ ∧
    (nodes.foldl spec_update_record m).num_users_ = m.num_users_ ∧
    (nodes.foldl spec_update_record m).num_items_ = m.num_items_ ∧
    (nodes.foldl spec_update_record m).num_blocks_ = m.num_blocks_ := by
  induction nodes generalizing m with
  | nil => exact ⟨rfl, rfl, rfl, rfl⟩
  | cons n rest ih =>
    simp only [List.foldl_cons]
    exact ih (spec_update_record m n)

theorem spec_fold_P_outside [CommRing α] (nodes : List (Node α)) (m : Model α) (k : Int)
    (h : ∀ n ∈ nodes, ¬ in_row m.params_.dim n.user_id k) :
    (nodes.foldl spec_update_record m).P k = m.P k := by
  induction nodes generalizing m with
  | nil => rfl
  | cons n rest ih =>
    simp only [List.foldl_cons]
    rw [ih (spec_update_record m n) (fun x hx => h x (List.mem_cons_of_mem _ hx))]
    exact spec_update_record_P_outside m n k (h n (List.mem_cons_self _ _))

theorem spec_fold_Q_outside [CommRing α] (nodes : List (Node α)) (m : Model α) (k : Int)
    (h : ∀ n ∈ nodes, ¬ in_row m.params_.dim n.item_id k) :
    (nodes.foldl spec_update_record m).Q k = m.Q k := by
  induction nodes generalizing m with
  | nil => rfl
  | cons n rest ih =>
    simp only [List.foldl_cons]
    rw [ih (spec_update_record m n) (fun x hx => h x (List.mem_cons_of_mem _ hx))]
    exact spec_update_record_Q_outside m n k (h n (List.mem_cons_self _ _))

/-- The loop of `sgd` over the records is the fold of the per-record update. -/
theorem sgd_eq_fold [CommRing α] (m : Model α) (block_id : Int) (block : Block α) :
    m.sgd block_id block = block.nodes.foldl spec_update_record m := by
  unfold Model.sgd
  simp only
  generalize block.nodes = nodes
  induction nodes generalizing m with
  | nil => rfl
  | cons n rest ih =>
    simp only [List.foldl_cons]
    rw [sgd_node_eq]
    have hp : (spec_update_record m n).params_ = m.params_ := rfl
    rw [← hp]
    exact ih (spec_update_record m n)

/-- The update of one record reads only the row of its user in `P` and the row of its
item in `Q`. -/
theorem spec_update_record_local [CommRing α] (m m' : Model α) (node : Node α)
    (hp : m'.params_ = m.params_)
    (hP : ∀ k, in_row m.params_.dim node.user_id k → m'.P k = m.P k)
    (hQ : ∀ k, in_row m.params_.dim node.item_id k → m'.Q k = m.Q k) :
    (∀ k, in_row m.params_.dim node.user_id k →
      (spec_update_record m' node).P k = (spec_update_record m node).P k) ∧
    (∀ k, in_row m.params_.dim node.item_id k →
      (spec_update_record m' node).Q k = (spec_update_record m node).Q k) := by
  have hdot : ((List.range m.params_.dim).map (fun (d : Nat) =>
        m'.P ((node.user_id - 1) * (m.params_.dim : Int) + (d : Int)) *
        m'.Q ((node.item_id - 1) * (m.params_.dim : Int) + (d : Int)))).sum =
      ((List.range m.params_.dim).map (fun (d : Nat) =>
        m.P ((node.user_id - 1) * (m.params_.dim : Int) + (d : Int)) *
        m.Q ((node.item_id - 1) * (m.params_.dim : Int) + (d : Int)))).sum := by
    congr 1
    apply List.map_congr_left
    intro d hd
    have hd' : (d : Int) < (m.params_.dim : Int) := by
      exact_mod_cast List.mem_range.mp hd
    rw [hP _ ⟨by omega, by omega⟩, hQ _ ⟨by omega, by omega⟩]
  constructor
  · intro k hk
    have hk' := hk
    unfold in_row at hk'
    simp only [spec_update_record, spec_row_update, hp]
    rw [if_pos hk', if_pos hk', hdot, hP k hk, hQ _ ⟨by omega, by omega⟩]
  · intro k hk
    have hk' := hk
    unfold in_row at hk'
    simp only [spec_update_record, spec_row_update, hp]
    rw [if_pos hk', if_pos hk', hdot, hQ k hk, hP _ ⟨by omega, by omega⟩]

/-- Two records with different users and different items: their updates commute. -/
theorem spec_update_record_comm [CommRing α] (m : Model α) (n1 n2 : Node α)
    (hu : n1.user_id ≠ n2.user_id) (hi : n1.item_id ≠ n2.item_id) :
    spec_update_record (spec_update_record m n1) n2 =
      spec_update_record (spec_update_record m n2) n1 := by
  have l12 := spec_update_record_local m (spec_update_record m n1) n2 rfl
    (fun k hk => spec_update_record_P_outside m n1 k
      (fun h => in_row_disjoint _ _ _ k hu h hk))
    (fun k hk => spec_update_record_Q_outside m n1 k
      (fun h => in_row_disjoint _ _ _ k hi h hk))
  have l21 := spec_update_record_local m (spec_update_record m n2) n1 rfl
    (fun k hk => spec_update_record_P_outside m n2 k
      (fun h => in_row_disjoint _ _ _ k hu hk h))
    (fun k hk => spec_update_record_Q_outside m n2 k
      (fun h => in_row_disjoint _ _ _ k hi hk h))
  refine Model.eq_of_fields ?_ ?_ ?_ ?_ ?_ ?_
  · rfl
  · rfl
  · rfl
  · rfl
  · intro k
    by_cases h2 : in_row m.params_.dim n2.user_id k
    · rw [l12.1 k h2]
      have h1 : ¬ in_row m.params_.dim n1.user_id k :=
        fun h => in_row_disjoint _ _ _ k hu h h2
      exact (spec_update_record_P_outside (spec_update_record m n2) n1 k h1).symm
    · rw [spec_update_record_P_outside (spec_update_record m n1) n2 k h2]
      by_cases h1 : in_row m.params_.dim n1.user_id k
      · exact (l21.1 k h1).symm
      · rw [spec_update_record_P_outside m n1 k h1,
          spec_update_record_P_outside (spec_update_record m n2) n1 k h1,
          spec_update_record_P_outside m n2 k h2]
  · intro k
    by_cases h2 : in_row m.params_.dim n2.item_id k
    · rw [l12.2 k h2]
      have h1 : ¬ in_row m.params_.dim n1.item_id k :=
        fun h => in_row_disjoint _ _ _ k hi h h2
      exact (spec_update_record_Q_outside (spec_update_record m n2) n1 k h1).symm
    · rw [spec_update_record_Q_outside (spec_update_record m n1) n2 k h2]
      by_cases h1 : in_row m.params_.dim n1.item_id k
      · exact (l21.2 k h1).symm
      · rw [spec_update_record_Q_outside m n1 k h1,
          spec_update_record_Q_outside (spec_update_record m n2) n1 k h1,
          spec_update_record_Q_outside m n2 k h2]

theorem foldl_comm_one {σ β : Type} (f : σ → β → σ) (a : β) (l : List β)
    (h : ∀ b ∈ l, ∀ s, f (f s a) b = f (f s b) a) :
    ∀ s, f (l.foldl f s) a = l.foldl f (f s a) := by
  induction l with
  | nil => intro s; rfl
  | cons b bs ih =>
    intro s
    simp only [List.foldl_cons]
    rw [ih (fun x hx => h x (List.mem_cons_of_mem _ hx)) (f s b),
      h b (List.mem_cons_self _ _) s]

theorem foldl_comm_lists {σ β : Type} (f : σ → β → σ) (l1 l2 : List β)
    (h : ∀ a ∈ l1, ∀ b ∈ l2, ∀ s, f (f s a) b = f (f s b) a) :
    ∀ s, l2.foldl f (l1.foldl f s) = l1.foldl f (l2.foldl f s) := by
  induction l1 with
  | nil => intro s; rfl
  | cons a as ih =>
    intro s
    simp only [List.foldl_cons]
    rw [ih (fun x hx => h x (List.mem_cons_of_mem _ hx)) (f s a),
      foldl_comm_one f a l2 (h a (List.mem_cons_self _ _)) s]

/-- C15 (independent blocks commute, exact arithmetic in a commutative ring such as the
reals): for every factor state and two blocks such that no dense `user_id` occurs in
records of both and no dense `item_id` occurs in records of both, `Model::sgd` on `b1`
and then on `b2` gives the same object (the same `P` and `Q`) as on `b2` and then on
`b1`. -/
theorem sgd_commute [CommRing α] (m : Model α) (id1 id2 : Int) (b1 b2 : Block α)
    (hu : ∀ n1 ∈ b1.nodes, ∀ n2 ∈ b2.nodes, n1.user_id ≠ n2.user_id)
    (hi : ∀ n1 ∈ b1.nodes, ∀ n2 ∈ b2.nodes, n1.item_id ≠ n2.item_id) :
    (m.sgd id1 b1).sgd id2 b2 = (m.sgd id2 b2).sgd id1 b1 := by
  simp only [sgd_eq_fold]
  exact foldl_comm_lists spec_update_record b1.nodes b2.nodes
    (fun a ha b hb s => spec_update_record_comm s a b (hu a ha b hb) (hi a ha b hb)) m

theorem sgd_commute_witness :
    (sampleModel.sgd 0 sampleBlock1).sgd 1 sampleBlock2 =
      (sampleModel.sgd 1 sampleBlock2).sgd 0 sampleBlock1 :=
  sgd_commute sampleModel 0 1 sampleBlock1 sampleBlock2 (by decide) (by decide)

/-- C16 (SGD frame): `Model::sgd` changes only cells of `P` in rows `user_id - 1` of user
ids of the records of the block and cells of `Q` in rows `item_id - 1` of their item ids:
every cell outside these rows, hence every other row `r` (cells `r * dim + d`, `d < dim`),
keeps its value, and the parameters (`dim`, `step_size`, `lp`, `lq`) and the other
members are the same.  The block is a read-only argument. -/
theorem sgd_frame [CommRing α] (m : Model α) (block_id : Int) (block : Block α) :
    (∀ k : Int, (∀ n ∈ block.nodes, ¬ in_row m.params_.dim n.user_id k) →
      (m.sgd block_id block).P k = m.P k) ∧
    (∀ k : Int, (∀ n ∈ block.nodes, ¬ in_row m.params_.dim n.item_id k) →
      (m.sgd block_id block).Q k = m.Q k) ∧
    (∀ (r : Int) (d : Nat), d < m.params_.dim → (∀ n ∈ block.nodes, n.user_id - 1 ≠ r) →
      (m.sgd block_id block).P (r * (m.params_.dim : Int) + (d : Int)) =
        m.P (r * (m.params_.dim : Int) + (d : Int))) ∧
    (∀ (r : Int) (d : Nat), d < m.params_.dim → (∀ n ∈ block.nodes, n.item_id - 1 ≠ r) →
      (m.sgd block_id block).Q (r * (m.params_.dim : Int) + (d : Int)) =
        m.Q (r * (m.params_.dim : Int) + (d : Int))) ∧
    (m.sgd block_id block).params_ = m.params_ ∧
    (m.sgd block_id block).num_users_ = m.num_users_ ∧
    (m.sgd block_id block).num_items_ = m.num_items_ ∧
    (m.sgd block_id block).num_blocks_ = m.num_blocks_ := by
  simp only [sgd_eq_fold]
  obtain ⟨p1, p2, p3, p4⟩ := spec_fold_params block.nodes m
  refine ⟨fun k h => spec_fold_P_outside _ m k h, fun k h => spec_fold_Q_outside _ m k h,
    ?_, ?_, p1, p2, p3, p4⟩
  · intro r d hd h
    apply spec_fold_P_outside
    intro n hn hrow
    exact h n hn (in_row_cell _ _ r d hd hrow)
  · intro r d hd h
    apply spec_fold_Q_outside
    intro n hn hrow
    exact h n hn (in_row_cell _ _ r d hd hrow)

theorem sgd_frame_witness :
    (sampleModel.sgd 0 sampleBlock1).P (1 * (sampleModel.params_.dim : Int) + ((1 : Nat) : Int))
      = sampleModel.P (1 * (sampleModel.params_.dim : Int) + ((1 : Nat) : Int)) ∧
    (sampleModel.sgd 0 sampleBlock1).Q 2 = sampleModel.Q 2 :=
  ⟨(sgd_frame sampleModel 0 sampleBlock1).2.2.1 1 1 (by decide) (by decide),
    (sgd_frame sampleModel 0 sampleBlock1).2.1 2 (by decide)⟩

/-- C17 (empty block): for every factor state and every block whose record list is empty,
`Model::sgd` returns with the object, in particular `P` and `Q`, as before the call. -/
theorem sgd_empty_block [Ring α] (m : Model α) (block_id : Int) (block : Block α)
    (h : block.nodes = []) :
    m.sgd block_id block = m ∧ (m.sgd block_id block).P = m.P ∧
      (m.sgd block_id block).Q = m.Q := by
  have : m.sgd block_id block = m := by
    simp only [Model.sgd, h, List.foldl_nil]
  rw [this]
  exact ⟨rfl, rfl, rfl⟩

theorem sgd_empty_block_witness :
    sampleModel.sgd 0 ⟨0, 1, []⟩ = sampleModel ∧
      (sampleModel.sgd 0 ⟨0, 1, []⟩).P = sampleModel.P ∧
      (sampleModel.sgd 0 ⟨0, 1, []⟩).Q = sampleModel.Q :=
  sgd_empty_block sampleModel 0 ⟨0, 1, []⟩ rfl

theorem sgd_sample_eval :
    (sampleModel.sgd 0 sampleBlock1).P 0 = -13 ∧ (sampleModel.sgd 0 sampleBlock1).Q 0 = 17 ∧
    (sampleModel.sgd 0 sampleBlock1).P 1 = 10 ∧ (sampleModel.sgd 0 sampleBlock1).Q 1 = 19 := by
  decide

theorem sampleMatrix_eq : Matrix.create demoLib sampleParams = some sampleMatrix := by
  decide

/-- With original ids at least 1 and a grid of at least one row and one column the
constructor finishes. -/
theorem create_defined [Zero α] (lib : StdLib α) (hlib : lib.Conforms) (dp : DataParams α)
    (hpos : ∀ l ∈ dp.training ++ dp.test,
      1 ≤ (sscanf l Node.init).orig_user_id ∧ 1 ≤ (sscanf l Node.init).orig_item_id)
    (hu : 1 ≤ dp.num_user_blocks) (hi : 1 ≤ dp.num_item_blocks) :
    ∃ M, Matrix.create lib dp = some M := by
  obtain ⟨m, hm, hr⟩ := remapped_ok lib hlib dp hpos
  exact create_ok lib dp m hm hu hi (fun n hn => hr n (List.mem_append_left _ hn))

theorem user_id_less_sorted (lib : StdLib α) (hlib : lib.Conforms) (l : List (Node α)) :
    (lib.sort user_id_less l).Pairwise (fun x y => x.user_id ≤ y.user_id) := by
  have h := hlib.2.2 user_id_less l
    (by
      intro a b c hab hbc
      simp only [user_id_less, decide_eq_false_iff_not, not_lt] at hab hbc ⊢
      omega)
    (by
      intro a b hab
      simp only [user_id_less, decide_eq_true_eq, decide_eq_false_iff_not, not_lt] at hab ⊢
      omega)
  refine h.imp ?_
  intro a b hab
  simp only [user_id_less, decide_eq_false_iff_not, not_lt] at hab
  exact hab

/-- C13 (blocks sorted by user id): after `Matrix` construction the records of every
block are in non-decreasing order of dense `user_id`: every earlier record has a
`user_id` at most that of every later one, in particular for every adjacent pair.  The
constructor finishes for original ids at least 1 on a grid with `num_user_blocks ≥ 1` and
`num_item_blocks ≥ 1`. -/
theorem blocks_sorted [Zero α] (lib : StdLib α) (hlib : lib.Conforms) (dp : DataParams α) :
    ((∀ l ∈ dp.training ++ dp.test,
        1 ≤ (sscanf l Node.init).orig_user_id ∧ 1 ≤ (sscanf l Node.init).orig_item_id) →
      1 ≤ dp.num_user_blocks → 1 ≤ dp.num_item_blocks →
      ∃ M, Matrix.create lib dp = some M) ∧
    ∀ M, Matrix.create lib dp = some M → ∀ b ∈ M.blocks,
      b.nodes.Pairwise (fun x y => x.user_id ≤ y.user_id) ∧
      b.nodes.Chain' (fun x y => x.user_id ≤ y.user_id) := by
  refine ⟨fun hpos hu hi => create_defined lib hlib dp hpos hu hi, ?_⟩
  intro M hM b hb
  obtain ⟨m, blocks', _, _, hMeq⟩ := create_inv hM
  subst hMeq
  simp only [Matrix.sort_nodes_by_user_id, List.mem_map] at hb
  obtain ⟨b0, _, rfl⟩ := hb
  have hs := user_id_less_sorted lib hlib b0.nodes
  exact ⟨hs, hs.chain'⟩

theorem blocks_sorted_witness :
    ((∀ l ∈ sampleParams.training ++ sampleParams.test,
        1 ≤ (sscanf l Node.init).orig_user_id ∧ 1 ≤ (sscanf l Node.init).orig_item_id) →
      1 ≤ sampleParams.num_user_blocks → 1 ≤ sampleParams.num_item_blocks →
      ∃ M, Matrix.create demoLib sampleParams = some M) ∧
    ∀ M, Matrix.create demoLib sampleParams = some M → ∀ b ∈ M.blocks,
      b.nodes.Pairwise (fun x y => x.user_id ≤ y.user_id) ∧
      b.nodes.Chain' (fun x y => x.user_id ≤ y.user_id) :=
  blocks_sorted demoLib demoLib_conforms sampleParams

/-- The remapping phase is defined as soon as both mapping vectors have the size of their
population and the original ids are at least 1. -/
theorem remapped_of_lengths [Zero α] (lib : StdLib α) (dp : DataParams α)
    (hlu : (mapping_of lib 0 (Matrix.read_inputs dp).num_users dp.randomize).length =
      (Matrix.read_inputs dp).num_users.toNat)
    (hli : (mapping_of lib 1 (Matrix.read_inputs dp).num_items dp.randomize).length =
      (Matrix.read_inputs dp).num_items.toNat)
    (hpos : ∀ l ∈ dp.training ++ dp.test,
      1 ≤ (sscanf l Node.init).orig_user_id ∧ 1 ≤ (sscanf l Node.init).orig_item_id) :
    ∃ m, Matrix.remapped lib dp = some m := by
  have hb := read_inputs_orig_bounds dp hpos
  have hnu := (read_inputs_num_users dp).1
  have hni := (read_inputs_num_items dp).1
  obtain ⟨nodes', h1⟩ := assign_user_and_item_id_ok
    (mapping_of lib 0 (Matrix.read_inputs dp).num_users dp.randomize)
    (mapping_of lib 1 (Matrix.read_inputs dp).num_items dp.randomize)
    (Matrix.read_inputs dp).nodes (by
      intro n hn
      have := hb n (List.mem_append_left _ hn)
      omega)
  obtain ⟨test', h2⟩ := assign_user_and_item_id_ok
    (mapping_of lib 0 (Matrix.read_inputs dp).num_users dp.randomize)
    (mapping_of lib 1 (Matrix.read_inputs dp).num_items dp.randomize)
    (Matrix.read_inputs dp).nodes_test (by
      intro n hn
      have := hb n (List.mem_append_right _ hn)
      omega)
  refine ⟨{ Matrix.read_inputs dp with nodes := nodes', nodes_test := test' }, ?_⟩
  simp only [Matrix.remapped, h1, h2]

/-- Records of the remapped state come from the records read, by `Remap`. -/
theorem remapped_records [Zero α] {lib : StdLib α} {dp : DataParams α} {m : Matrix α}
    (hm : Matrix.remapped lib dp = some m) :
    List.Forall₂ (Remap (mapping_of lib 0 (Matrix.read_inputs dp).num_users dp.randomize)
        (mapping_of lib 1 (Matrix.read_inputs dp).num_items dp.randomize))
      (Matrix.read_inputs dp).nodes m.nodes ∧
    List.Forall₂ (Remap (mapping_of lib 0 (Matrix.read_inputs dp).num_users dp.randomize)
        (mapping_of lib 1 (Matrix.read_inputs dp).num_items dp.randomize))
      (Matrix.read_inputs dp).nodes_test m.nodes_test := by
  obtain ⟨nodes', test', h1, h2, hmeq⟩ := remapped_inv hm
  subst hmeq
  exact ⟨assign_user_and_item_id_inv _ _ _ _ h1, assign_user_and_item_id_inv _ _ _ _ h2⟩

theorem remapped_mem [Zero α] {lib : StdLib α} {dp : DataParams α} {m : Matrix α}
    (hm : Matrix.remapped lib dp = some m) :
    ∀ n' ∈ m.nodes ++ m.nodes_test,
      ∃ n ∈ (Matrix.read_inputs dp).nodes ++ (Matrix.read_inputs dp).nodes_test,
        Remap (mapping_of lib 0 (Matrix.read_inputs dp).num_users dp.randomize)
          (mapping_of lib 1 (Matrix.read_inputs dp).num_items dp.randomize) n n' := by
  obtain ⟨h1, h2⟩ := remapped_records hm
  intro n' hn'
  rcases List.mem_append.mp hn' with h | h
  · obtain ⟨n, hn, hR⟩ := forall₂_right h1 n' h
    exact ⟨n, List.mem_append_left _ hn, hR⟩
  · obtain ⟨n, hn, hR⟩ := forall₂_right h2 n' h
    exact ⟨n, List.mem_append_right _ hn, hR⟩

theorem create_records [Zero α] {lib : StdLib α} {dp : DataParams α} {M : Matrix α}
    (hM : Matrix.create lib dp = some M) :
    ∃ m, Matrix.remapped lib dp = some m ∧ M.nodes = m.nodes ∧
      M.nodes_test = m.nodes_test ∧ M.num_users = m.num_users ∧
      M.num_items = m.num_items ∧ M.num_ratings = m.num_ratings ∧
      M.num_ratings_test = m.num_ratings_test := by
  obtain ⟨m, blocks', hm, _, hMeq⟩ := create_inv hM
  subst hMeq
  exact ⟨m, hm, rfl, rfl, rfl, rfl, rfl, rfl⟩

/-- C14 (identity remapping mode): with `randomize = false`, `generate_mapping_vector`
keeps the length of the vector and sets `mapping[i] = i + 1` for every index `i`; for
inputs whose original ids are at least 1 the remapping phase of the constructor is
defined, and every training and test record has `user_id = orig_user_id` and
`item_id = orig_item_id`, also in every constructed matrix. -/
theorem identity_remapping [Zero α] (lib : StdLib α) (dp : DataParams α)
    (hrand : dp.randomize = false)
    (hpos : ∀ l ∈ dp.training ++ dp.test,
      1 ≤ (sscanf l Node.init).orig_user_id ∧ 1 ≤ (sscanf l Node.init).orig_item_id) :
    (∀ (shuffle : List Int → List Int) (v : List Int),
      (generate_mapping_vector shuffle v dp.randomize).length = v.length ∧
      ∀ i : Nat, i < v.length →
        (generate_mapping_vector shuffle v dp.randomize)[i]? = some ((i : Int) + 1)) ∧
    (∃ m, Matrix.remapped lib dp = some m ∧
      ∀ n ∈ m.nodes ++ m.nodes_test,
        n.user_id = n.orig_user_id ∧ n.item_id = n.orig_item_id) ∧
    (∀ M, Matrix.create lib dp = some M →
      ∀ n ∈ M.nodes ++ M.nodes_test,
        n.user_id = n.orig_user_id ∧ n.item_id = n.orig_item_id) := by
  have hid : ∀ m, Matrix.remapped lib dp = some m → ∀ n ∈ m.nodes ++ m.nodes_test,
      n.user_id = n.orig_user_id ∧ n.item_id = n.orig_item_id := by
    intro m hm n' hn'
    obtain ⟨n, _, hR⟩ := remapped_mem hm n' hn'
    obtain ⟨r1, r2, r3, r4, _⟩ := hR
    rw [hrand, mapping_of_identity] at r1 r2
    have e1 := vec_at_iota _ _ _ r1
    have e2 := vec_at_iota _ _ _ r2
    omega
  refine ⟨?_, ?_, ?_⟩
  · intro shuffle v
    rw [hrand, generate_mapping_vector_identity]
    refine ⟨by simp, ?_⟩
    intro i hi
    rw [List.getElem?_map, List.getElem?_range hi]
    rfl
  · obtain ⟨m, hm⟩ := remapped_of_lengths lib dp
      (by rw [hrand, mapping_of_identity]; simp)
      (by rw [hrand, mapping_of_identity]; simp) hpos
    exact ⟨m, hm, hid m hm⟩
  · intro M hM
    obtain ⟨m, hm, e1, e2, _⟩ := create_records hM
    rw [e1, e2]
    exact hid m hm

theorem identity_remapping_witness :
    (∀ (shuffle : List Int → List Int) (v : List Int),
      (generate_mapping_vector shuffle v evenParams.randomize).length = v.length ∧
      ∀ i : Nat, i < v.length →
        (generate_mapping_vector shuffle v evenParams.randomize)[i]? = some ((i : Int) + 1)) ∧
    (∃ m, Matrix.remapped demoLib evenParams = some m ∧
      ∀ n ∈ m.nodes ++ m.nodes_test,
        n.user_id = n.orig_user_id ∧ n.item_id = n.orig_item_id) ∧
    (∀ M, Matrix.create demoLib evenParams = some M →
      ∀ n ∈ M.nodes ++ M.nodes_test,
        n.user_id = n.orig_user_id ∧ n.item_id = n.orig_item_id) :=
  identity_remapping demoLib evenParams rfl (by decide)

theorem vec_at_inj {v : List Int} (hv : v.Nodup) {k1 k2 x : Int}
    (h1 : vec_at v k1 = some x) (h2 : vec_at v k2 = some x) : k1 = k2 := by
  obtain ⟨a0, a1, a2⟩ := vec_at_eq_some h1
  obtain ⟨b0, _, b2⟩ := vec_at_eq_some h2
  have := List.getElem?_inj a1 hv (a2.trans b2.symm)
  omega

theorem mapping_of_nodup (lib : StdLib α) (hlib : lib.Conforms) (k : Nat) (n : Int)
    (randomize : Bool) : (mapping_of lib k n randomize).Nodup :=
  (mapping_of_perm lib hlib k n randomize).nodup_iff.mpr (nodup_iota _)

theorem forall₂_same_original {um im : List Int} {l l' : List (Node α)}
    (h : List.Forall₂ (Remap um im) l l') : List.Forall₂ same_original l l' := by
  induction h with
  | nil => exact List.Forall₂.nil
  | cons hab _ ih => exact List.Forall₂.cons ⟨hab.2.2.1, hab.2.2.2.1, hab.2.2.2.2⟩ ih

/-- C18 (remapping is consistent and keeps the original data): whenever
`assign_user_and_item_id` finishes, its output has as many records as its input, in the
same order, each with `orig_user_id`, `orig_item_id` and `rating` unchanged; in the
constructor, for inputs with original ids at least 1, both lists are remapped by the same
two permutations, so any two records (training or test) have equal dense `user_id` if and
only if they have equal `orig_user_id`, and equal dense `item_id` if and only if they have
equal `orig_item_id`; the constructed matrix holds these lists. -/
theorem remapping_consistent [Zero α] (lib : StdLib α) (hlib : lib.Conforms)
    (dp : DataParams α)
    (hpos : ∀ l ∈ dp.training ++ dp.test,
      1 ≤ (sscanf l Node.init).orig_user_id ∧ 1 ≤ (sscanf l Node.init).orig_item_id) :
    (∀ (nodes nodes' : List (Node α)) (um im : List Int),
      assign_user_and_item_id nodes um im = some nodes' →
      nodes'.length = nodes.length ∧ List.Forall₂ same_original nodes nodes') ∧
    ∃ m, Matrix.remapped lib dp = some m ∧
      List.Forall₂ same_original (Matrix.read_inputs dp).nodes m.nodes ∧
      List.Forall₂ same_original (Matrix.read_inputs dp).nodes_test m.nodes_test ∧
      (∀ a ∈ m.nodes ++ m.nodes_test, ∀ b ∈ m.nodes ++ m.nodes_test,
        (a.user_id = b.user_id ↔ a.orig_user_id = b.orig_user_id) ∧
        (a.item_id = b.item_id ↔ a.orig_item_id = b.orig_item_id)) ∧
      ∀ M, Matrix.create lib dp = some M →
        M.nodes = m.nodes ∧ M.nodes_test = m.nodes_test := by
  refine ⟨?_, ?_⟩
  · intro nodes nodes' um im h
    have hF := assign_user_and_item_id_inv um im nodes nodes' h
    exact ⟨hF.length_eq.symm, forall₂_same_original hF⟩
  · obtain ⟨m, hm, _⟩ := remapped_ok lib hlib dp hpos
    obtain ⟨f1, f2⟩ := remapped_records hm
    refine ⟨m, hm, forall₂_same_original f1, forall₂_same_original f2, ?_, ?_⟩
    · intro a ha b hb
      obtain ⟨a0, _, ra⟩ := remapped_mem hm a ha
      obtain ⟨b0, _, rb⟩ := remapped_mem hm b hb
      obtain ⟨a1, a2, a3, a4, _⟩ := ra
      obtain ⟨b1, b2, b3, b4, _⟩ := rb
      have hnu := mapping_of_nodup lib hlib 0 (Matrix.read_inputs dp).num_users dp.randomize
      have hni := mapping_of_nodup lib hlib 1 (Matrix.read_inputs dp).num_items dp.randomize
      constructor
      · constructor
        · intro h
          rw [h] at a1
          have := vec_at_inj hnu a1 b1
          omega
        · intro h
          have e : a0.orig_user_id = b0.orig_user_id := by omega
          rw [e, b1] at a1
          exact (Option.some.inj a1).symm
      · constructor
        · intro h
          rw [h] at a2
          have := vec_at_inj hni a2 b2
          omega
        · intro h
          have e : a0.orig_item_id = b0.orig_item_id := by omega
          rw [e, b2] at a2
          exact (Option.some.inj a2).symm
    · intro M hM
      obtain ⟨m0, hm0, e1, e2, _⟩ := create_records hM
      rw [hm] at hm0
      cases hm0
      exact ⟨e1, e2⟩

theorem remapping_consistent_witness :
    (∀ (nodes nodes' : List (Node Int)) (um im : List Int),
      assign_user_and_item_id nodes um im = some nodes' →
      nodes'.length = nodes.length ∧ List.Forall₂ same_original nodes nodes') ∧
    ∃ m, Matrix.remapped demoLib sampleParams = some m ∧
      List.Forall₂ same_original (Matrix.read_inputs sampleParams).nodes m.nodes ∧
      List.Forall₂ same_original (Matrix.read_inputs sampleParams).nodes_test m.nodes_test ∧
      (∀ a ∈ m.nodes ++ m.nodes_test, ∀ b ∈ m.nodes ++ m.nodes_test,
        (a.user_id = b.user_id ↔ a.orig_user_id = b.orig_user_id) ∧
        (a.item_id = b.item_id ↔ a.orig_item_id = b.orig_item_id)) ∧
      ∀ M, Matrix.create demoLib sampleParams = some M →
        M.nodes = m.nodes ∧ M.nodes_test = m.nodes_test :=
  remapping_consistent demoLib demoLib_conforms sampleParams (by decide)

/-- C19 (rating counters match the record lists): in every constructed matrix
`num_ratings = nodes.size()` and `num_ratings_test = nodes_test.size()`, and `num_users`
(`num_items`) is the maximum `orig_user_id` (`orig_item_id`) over all training and test
records: an upper bound that some record attains, and 0 when there is no record.  The
constructor finishes for original ids at least 1 on a grid with `num_user_blocks ≥ 1`
and `num_item_blocks ≥ 1`. -/
theorem rating_counters [Zero α] (lib : StdLib α) (dp : DataParams α) :
    (lib.Conforms →
      (∀ l ∈ dp.training ++ dp.test,
        1 ≤ (sscanf l Node.init).orig_user_id ∧ 1 ≤ (sscanf l Node.init).orig_item_id) →
      1 ≤ dp.num_user_blocks → 1 ≤ dp.num_item_blocks →
      ∃ M, Matrix.create lib dp = some M) ∧
    ∀ M, Matrix.create lib dp = some M →
      M.num_ratings = (M.nodes.length : Int) ∧
      M.num_ratings_test = (M.nodes_test.length : Int) ∧
      (∀ n ∈ M.nodes ++ M.nodes_test,
        n.orig_user_id ≤ M.num_users ∧ n.orig_item_id ≤ M.num_items) ∧
      (M.nodes ++ M.nodes_test = [] → M.num_users = 0 ∧ M.num_items = 0) ∧
      (M.nodes ++ M.nodes_test ≠ [] →
        (∃ n ∈ M.nodes ++ M.nodes_test, n.orig_user_id = M.num_users) ∧
        (∃ n ∈ M.nodes ++ M.nodes_test, n.orig_item_id = M.num_items)) := by
  refine ⟨fun hlib hpos hu hi => create_defined lib hlib dp hpos hu hi, ?_⟩
  intro M hM
  obtain ⟨m, hm, e1, e2, e3, e4, e5, e6⟩ := create_records hM
  obtain ⟨f1, f2⟩ := remapped_records hm
  obtain ⟨_, _, _, g1, g2, g3, g4⟩ := remapped_frame hm
  have hlen1 := f1.length_eq
  have hlen2 := f2.length_eq
  have hR := read_inputs_eq dp
  have hnodes : (Matrix.read_inputs dp).nodes = dp.training.map (fun l => sscanf l Node.init) := by
    rw [hR]
  have htest : (Matrix.read_inputs dp).nodes_test = dp.test.map (fun l => sscanf l Node.init) := by
    rw [hR]
  have hnr : (Matrix.read_inputs dp).num_ratings = (dp.training.length : Int) := by rw [hR]
  have hnt : (Matrix.read_inputs dp).num_ratings_test = (dp.test.length : Int) := by rw [hR]
  obtain ⟨u0, u1, u2⟩ := read_inputs_num_users dp
  obtain ⟨i0, i1, i2⟩ := read_inputs_num_items dp
  -- every record read has its ids among the ids read, and conversely
  have hidsU : ∀ x ∈ read_user_ids dp.training ++ read_user_ids dp.test,
      ∃ n ∈ (Matrix.read_inputs dp).nodes ++ (Matrix.read_inputs dp).nodes_test,
        n.orig_user_id = x := by
    intro x hx
    rw [hnodes, htest]
    simp only [read_user_ids, List.mem_append, List.mem_map] at hx ⊢
    rcases hx with ⟨l, hl, rfl⟩ | ⟨l, hl, rfl⟩
    · exact ⟨_, Or.inl ⟨l, hl, rfl⟩, rfl⟩
    · exact ⟨_, Or.inr ⟨l, hl, rfl⟩, rfl⟩
  have hidsI : ∀ x ∈ read_item_ids dp.training ++ read_item_ids dp.test,
      ∃ n ∈ (Matrix.read_inputs dp).nodes ++ (Matrix.read_inputs dp).nodes_test,
        n.orig_item_id = x := by
    intro x hx
    rw [hnodes, htest]
    simp only [read_item_ids, List.mem_append, List.mem_map] at hx ⊢
    rcases hx with ⟨l, hl, rfl⟩ | ⟨l, hl, rfl⟩
    · exact ⟨_, Or.inl ⟨l, hl, rfl⟩, rfl⟩
    · exact ⟨_, Or.inr ⟨l, hl, rfl⟩, rfl⟩
  have hmemU : ∀ n ∈ (Matrix.read_inputs dp).nodes ++ (Matrix.read_inputs dp).nodes_test,
      n.orig_user_id ∈ read_user_ids dp.training ++ read_user_ids dp.test ∧
      n.orig_item_id ∈ read_item_ids dp.training ++ read_item_ids dp.test := by
    intro n hn
    rw [hnodes, htest] at hn
    simp only [read_user_ids, read_item_ids, List.mem_append, List.mem_map] at hn ⊢
    rcases hn with ⟨l, hl, rfl⟩ | ⟨l, hl, rfl⟩
    · exact ⟨Or.inl ⟨l, hl, rfl⟩, Or.inl ⟨l, hl, rfl⟩⟩
    · exact ⟨Or.inr ⟨l, hl, rfl⟩, Or.inr ⟨l, hl, rfl⟩⟩
  -- a record read corresponds to a record of the matrix
  have hfwd : ∀ n ∈ (Matrix.read_inputs dp).nodes ++ (Matrix.read_inputs dp).nodes_test,
      ∃ n' ∈ m.nodes ++ m.nodes_test,
        Remap (mapping_of lib 0 (Matrix.read_inputs dp).num_users dp.randomize)
          (mapping_of lib 1 (Matrix.read_inputs dp).num_items dp.randomize) n n' := by
    intro n hn
    rcases List.mem_append.mp hn with h | h
    · obtain ⟨n', hn', hr⟩ := forall₂_left f1 n h
      exact ⟨n', List.mem_append_left _ hn', hr⟩
    · obtain ⟨n', hn', hr⟩ := forall₂_left f2 n h
      exact ⟨n', List.mem_append_right _ hn', hr⟩
  rw [e1, e2, e3, e4, e5, e6, g1, g2, g3, g4]
  refine ⟨?_, ?_, ?_, ?_, ?_⟩
  · rw [hnr, ← hlen1, hnodes, List.length_map]
  · rw [hnt, ← hlen2, htest, List.length_map]
  · intro n' hn'
    obtain ⟨n, hn, hr⟩ := remapped_mem hm n' hn'
    obtain ⟨_, _, r3, r4, _⟩ := hr
    obtain ⟨mu, mi⟩ := hmemU n hn
    rw [r3, r4]
    exact ⟨u1 _ mu, i1 _ mi⟩
  · intro hnil
    have hl : (m.nodes ++ m.nodes_test).length = 0 := by rw [hnil]; rfl
    rw [List.length_append, ← hlen1, ← hlen2, hnodes, htest, List.length_map,
      List.length_map] at hl
    have t1 : dp.training = [] := List.eq_nil_of_length_eq_zero (by omega)
    have t2 : dp.test = [] := List.eq_nil_of_length_eq_zero (by omega)
    rw [hR]
    simp [t1, t2, read_user_ids, read_item_ids]
  · intro hne
    obtain ⟨n', hn'⟩ := List.exists_mem_of_ne_nil _ hne
    obtain ⟨n, hn, hr⟩ := remapped_mem hm n' hn'
    obtain ⟨r1, r2, _⟩ := hr
    obtain ⟨p0, _, _⟩ := vec_at_eq_some r1
    obtain ⟨q0, _, _⟩ := vec_at_eq_some r2
    obtain ⟨mu, mi⟩ := hmemU n hn
    have hu := u1 _ mu
    have hi := i1 _ mi
    constructor
    · rcases u2 with h0 | hin
      · omega
      · obtain ⟨x, hx, hxe⟩ := hidsU _ hin
        obtain ⟨x', hx', hr'⟩ := hfwd x hx
        exact ⟨x', hx', by rw [hr'.2.2.1, hxe]⟩
    · rcases i2 with h0 | hin
      · omega
      · obtain ⟨x, hx, hxe⟩ := hidsI _ hin
        obtain ⟨x', hx', hr'⟩ := hfwd x hx
        exact ⟨x', hx', by rw [hr'.2.2.2.1, hxe]⟩

theorem rating_counters_witness :
    sampleMatrix.num_ratings = (sampleMatrix.nodes.length : Int) ∧
      sampleMatrix.num_ratings_test = (sampleMatrix.nodes_test.length : Int) ∧
      (∀ n ∈ sampleMatrix.nodes ++ sampleMatrix.nodes_test,
        n.orig_user_id ≤ sampleMatrix.num_users ∧ n.orig_item_id ≤ sampleMatrix.num_items) ∧
      (sampleMatrix.nodes ++ sampleMatrix.nodes_test = [] →
        sampleMatrix.num_users = 0 ∧ sampleMatrix.num_items = 0) ∧
      (sampleMatrix.nodes ++ sampleMatrix.nodes_test ≠ [] →
        (∃ n ∈ sampleMatrix.nodes ++ sampleMatrix.nodes_test,
          n.orig_user_id = sampleMatrix.num_users) ∧
        (∃ n ∈ sampleMatrix.nodes ++ sampleMatrix.nodes_test,
          n.orig_item_id = sampleMatrix.num_items)) :=
  (rating_counters demoLib sampleParams).2 sampleMatrix sampleMatrix_eq

/-- C12, as stated, fails: a line on which `sscanf` converts nothing still adds a record
(all fields 0) and increments the rating count; a line on which only the user id `7`
converts adds a record and raises `num_users` to 7. -/
theorem malformed_line_counterexample :
    (Matrix.init gridParams).read [Line.unparsed] 0 [] =
      (Matrix.init gridParams, 1, [⟨0, 0, 0, 0, 0⟩]) ∧
    (Matrix.init gridParams).read [Line.one 7] 0 [] =
      ({ Matrix.init gridParams with num_users := 7 }, 1, [⟨0, 0, 7, 0, 0⟩]) := by
  decide

/-- C12 (amended): for every sequence of input lines `Matrix::read` appends exactly one
record per line, in input order, whether or not the line parses as (int, int, real): the
fields `sscanf` converted are set, the other fields are 0 (a line that parses gives the
record of its three values); every line increments the rating count by one, and
`num_users` / `num_items` become the maximum of their old value and the original ids of
the records appended; nothing else of the object changes. -/
theorem read_appends_every_line [Zero α] (m : Matrix α) (input : List (Line α))
    (num_ratings : Int) (nodes : List (Node α)) :
    (m.read input num_ratings nodes).2.2 =
      nodes ++ input.map (fun l => sscanf l Node.init) ∧
    (m.read input num_ratings nodes).2.1 = num_ratings + (input.length : Int) ∧
    (m.read input num_ratings nodes).1 =
      { m with
        num_users := (read_user_ids input).foldl max m.num_users,
        num_items := (read_item_ids input).foldl max m.num_items } ∧
    (∀ (u i : Int) (r : α),
      sscanf (Line.three u i r) (Node.init : Node α) = ⟨0, 0, u, i, r⟩) ∧
    (∀ u i : Int, sscanf (Line.two u i) (Node.init : Node α) = ⟨0, 0, u, i, 0⟩) ∧
    (∀ u : Int, sscanf (Line.one u) (Node.init : Node α) = ⟨0, 0, u, 0, 0⟩) ∧
    sscanf Line.unparsed (Node.init : Node α) = ⟨0, 0, 0, 0, 0⟩ := by
  rw [read_eq]
  exact ⟨rfl, rfl, rfl, fun _ _ _ => rfl, fun _ _ => rfl, fun _ => rfl, rfl⟩

end common
end cpmf
